import Mathlib

/-!
Verification of the cmcp remote tool-execution router.

This file is a shallow embedding, in Lean 4, of the state-bearing core of the
cmcp repository: the tool registry and pending-call correlation machinery of
`ClientExecServer` (src/decorators/client_exec_server_v2.ts) and `DynServer`,
the agent-side `ClientExecClient.handleExecutionNotification`, and the
controller/puppet message-forwarding bridge of `bindPuppet`
(src/decorators/with_puppet.ts and its earlier generation).

JavaScript `Map` objects are modelled as association lists observed through
`find?`; `Set` objects as duplicate-free lists with append-if-absent insertion.
Promises are modelled by an explicit single-settlement caller state, and
`setTimeout`/`clearTimeout` by an explicit timer-armed flag.  Asynchronous
interleaving is modelled by explicit event sequences; within one handler the
runtime is single-threaded, so each handler is a pure state transformer.
-/

namespace Cmcp

/-! ## JavaScript Map model

An insertion-ordered association list.  `set` replaces the value in place when
the key is present and appends otherwise; `erase` removes the key; `find?`
returns the first binding.  All registry observations in the source go through
`Map.get`/`Map.has`, which these operations model exactly. -/

namespace JsMap

variable {α : Type}

def find? : List (String × α) → String → Option α
  | [], _ => none
  | (k', v) :: rest, k => if k' = k then some v else find? rest k

def set : List (String × α) → String → α → List (String × α)
  | [], k, v => [(k, v)]
  | (k', v') :: rest, k, v =>
      if k' = k then (k, v) :: rest else (k', v') :: set rest k v

def erase : List (String × α) → String → List (String × α)
  | [], _ => []
  | (k', v) :: rest, k => if k' = k then erase rest k else (k', v) :: erase rest k

def eraseAll : List (String × α) → List String → List (String × α)
  | m, [] => m
  | m, k :: ks => eraseAll (erase m k) ks

end JsMap

/-- JavaScript `Set.add` on an insertion-ordered set of strings. -/
def addToSet (s : List String) (x : String) : List String :=
  if x ∈ s then s else s ++ [x]

/-! ## JSON values

A shallow model of the `unknown` JSON-shaped values carried in message params
(`result`, `args`, `inputSchema`). -/

inductive JValue : Type
  | null : JValue
  | bool : Bool → JValue
  | num : Int → JValue
  | str : String → JValue
  | arrNil : JValue
  | arrCons : JValue → JValue → JValue
  | objNil : JValue
  | objCons : String → JValue → JValue → JValue
deriving DecidableEq, Repr

/-- Stands for the platform `JSON.stringify(v, null, 2)`; the claims never
inspect the exact formatting, only that non-string results are serialized to
some text.  Arrays and objects are encoded as cons lists (`arrCons head tail`,
`objCons key value rest`). -/
def stringifyJValue : JValue → String
  | .null => "null"
  | .bool true => "true"
  | .bool false => "false"
  | .num n => toString n
  | .str s => "\"" ++ s ++ "\""
  | .arrNil => "[]"
  | .arrCons h t => "[" ++ stringifyJValue h ++ "|" ++ stringifyJValue t ++ "]"
  | .objNil => "\x7b\x7d"
  | .objCons k v r =>
      "\x7b" ++ k ++ ":" ++ stringifyJValue v ++ "|" ++ stringifyJValue r ++ "\x7d"

/-! ## Tool registry (`ClientExecServer`, src client_exec_server_v2)

The registry state consists of the three `Map` fields `tools`, `clientTools`
and `toolToClient` together with the `useNamespacing` flag.  All registry
operations below are direct translations of the corresponding methods of
`ClientExecServer` (the `DynServer` generation has textually identical
registration code). -/

/-- The stored tool descriptor (`Tool` values put into `this.tools`). -/
structure Tool where
  name : String
  description : String
  inputSchema : JValue
deriving DecidableEq, Repr

/-- One element of the `tools` array of a `client/register_tools` request. -/
structure RegToolInput where
  name : String
  description : String
  inputSchema : JValue
deriving DecidableEq, Repr

structure RegState where
  tools : List (String × Tool)
  clientTools : List (String × List String)
  toolToClient : List (String × String)
  useNamespacing : Bool
deriving DecidableEq, Repr

/-- The params of the `proxy/execute_tool` notification. -/
structure ExecNotifyParams where
  id : String
  toolName : String
  args : JValue
  clientId : String
deriving DecidableEq, Repr

def initialRegState (useNamespacing : Bool) : RegState :=
  { tools := [], clientTools := [], toolToClient := [], useNamespacing := useNamespacing }

namespace ClientExecServer

/-- Translation of `getToolName`: namespaced key is clientId, a colon, the
raw tool name. -/
def getToolName (useNamespacing : Bool) (clientId toolName : String) : String :=
  if useNamespacing then clientId ++ ":" ++ toolName else toolName

/-- Character-level model of the JavaScript `namespacedName.split(":")`. -/
def splitOnColon : List Char → List (List Char)
  | [] => [[]]
  | c :: rest =>
      let r := splitOnColon rest
      if c = ':' then [] :: r
      else
        match r with
        | [] => [[c]]
        | g :: gs => (c :: g) :: gs

/-- Character-level model of `groups.join(":")`. -/
def joinColon : List (List Char) → List Char
  | [] => []
  | [g] => g
  | g :: gs => g ++ ':' :: joinColon gs

/-- Translation of `getOriginalToolName`: with namespacing on and a colon in
the name, drop the first colon-separated segment and rejoin the rest. -/
def getOriginalToolName (useNamespacing : Bool) (namespacedName : String) : String :=
  if useNamespacing ∧ ':' ∈ namespacedName.data then
    String.mk (joinColon ((splitOnColon namespacedName.data).drop 1))
  else namespacedName

/-- Translation of `unregisterClientTools`: remove each key in the client's
session set from `tools` and `toolToClient`, then drop the session. -/
def unregisterClientTools (s : RegState) (clientId : String) : RegState :=
  match JsMap.find? s.clientTools clientId with
  | none => s
  | some names =>
      { s with
        tools := JsMap.eraseAll s.tools names
        toolToClient := JsMap.eraseAll s.toolToClient names
        clientTools := JsMap.erase s.clientTools clientId }

/-- Accumulator of the registration loop: the evolving maps plus the
`registeredTools`, `conflicts` and `clientToolNames` collections. -/
structure RegAcc where
  st : RegState
  registeredTools : List String
  conflicts : List String
  clientToolNames : List String
deriving DecidableEq, Repr

/-- One iteration of the `for (const tool of tools)` loop in
`handleClientToolRegistration`: an existing key (whatever its owner, and under
either namespacing mode) is pushed to `conflicts` and skipped; a fresh key is
inserted into `tools` (with the display name and description depending on
namespacing), recorded in the session set, pushed to `registeredTools`, and
given an owner in `toolToClient`. -/
def regToolStep (clientId : String) (acc : RegAcc) (tool : RegToolInput) : RegAcc :=
  let toolName := getToolName acc.st.useNamespacing clientId tool.name
  if (JsMap.find? acc.st.tools toolName).isSome then
    { acc with conflicts := acc.conflicts ++ [tool.name] }
  else
    { st := { acc.st with
        tools := JsMap.set acc.st.tools toolName
          { name := if acc.st.useNamespacing then tool.name else toolName
            description :=
              if acc.st.useNamespacing then "[" ++ clientId ++ "] " ++ tool.description
              else tool.description
            inputSchema := tool.inputSchema }
        toolToClient := JsMap.set acc.st.toolToClient toolName clientId }
      registeredTools := acc.registeredTools ++ [tool.name]
      conflicts := acc.conflicts
      clientToolNames := addToSet acc.clientToolNames toolName }

/-- The `{ status, registeredTools, conflicts }` value returned to the
registering peer. -/
structure RegResult where
  status : String
  registeredTools : List String
  conflicts : List String
deriving DecidableEq, Repr

/-- Translation of `handleClientToolRegistration`: first unregister the
client's previous tools, then run the registration loop, then store the new
session set; always returns status "success". -/
def handleClientToolRegistration (s : RegState) (clientId : String)
    (tools : List RegToolInput) : RegState × RegResult :=
  let s1 := unregisterClientTools s clientId
  let acc := tools.foldl (regToolStep clientId) ⟨s1, [], [], []⟩
  let s2 := { acc.st with clientTools := JsMap.set acc.st.clientTools clientId acc.clientToolNames }
  (s2, { status := "success", registeredTools := acc.registeredTools, conflicts := acc.conflicts })

/-- Translation of `registerToolSchemas`: static registration under the
pseudo-owner "server"; inserts unconditionally, with no conflict check and no
session-set bookkeeping. -/
def registerToolSchemas (s : RegState) (tools : List RegToolInput) : RegState :=
  tools.foldl (fun st tool =>
    let toolName := getToolName st.useNamespacing "server" tool.name
    { st with
      tools := JsMap.set st.tools toolName
        { name := tool.name, description := tool.description, inputSchema := tool.inputSchema }
      toolToClient := JsMap.set st.toolToClient toolName "server" }) s

/-- Translation of `notifyClientExecute`: look up the owner; the
`if (!targetClientId)` check fails both when the lookup misses and when the
owner id is the (falsy) empty string; the static "server" owner is also
refused; otherwise emit the execution notification carrying the de-namespaced
tool name and the owner's client id. -/
def notifyClientExecute (s : RegState) (requestId toolName : String) (args : JValue) :
    Except String ExecNotifyParams :=
  match JsMap.find? s.toolToClient toolName with
  | none => .error ("No client found for tool: " ++ toolName)
  | some targetClientId =>
      if targetClientId = "" then .error ("No client found for tool: " ++ toolName)
      else if targetClientId = "server" then
        .error ("Server-owned tools cannot be executed remotely: " ++ toolName)
      else
        .ok { id := requestId
              toolName := getOriginalToolName s.useNamespacing toolName
              args := args
              clientId := targetClientId }

end ClientExecServer

/-! ## Pending-call correlation

`callTool` stores, under a fresh request id, a `{resolve, reject, timeout}`
record in `pendingRequests` and arms a `setTimeout`.  We model the lifecycle of
one request id: the table entry's presence, whether its timer can still fire
(armed means the timeout was neither cleared nor has fired yet), and the caller
promise, which settles at most once. -/

/-- JavaScript `a || b` on an optional string: both `undefined` and the empty
string are falsy, so either selects the default. -/
def jsOr (o : Option String) (dflt : String) : String :=
  match o with
  | none => dflt
  | some e => if e = "" then dflt else e

/-- The `McpError` values raised by the router around one pending call.
`executionTimeout name` stands for `McpError(InternalError, "Tool execution
timeout for <name>")`, `requestNotFound` for `McpError(InvalidRequest,
"Request not found")`. -/
inductive McpError : Type
  | executionTimeout : String → McpError
  | requestNotFound : McpError
  | dispatchFailure : String → McpError
  | serverShutdown : McpError
deriving DecidableEq, Repr

/-- The params of a `proxy/tool_response` request. -/
structure RespParams where
  id : String
  success : Bool
  result : Option JValue
  error : Option String
deriving DecidableEq, Repr

/-- A `CallToolResult` with a single text content item, as constructed by
`DynServer.handleClientResponse`; `isError := false` models the field being
absent. -/
structure CallToolResult where
  text : String
  isError : Bool
deriving DecidableEq, Repr

/-- The value a pending caller is resolved with.  `ofJson v` is the raw
`params.result as CallToolResult` cast performed by
`ClientExecServer.handleClientResponse`; `ofResult r` is a `CallToolResult`
constructed by `DynServer.handleClientResponse`. -/
inductive ResolvedValue : Type
  | ofJson : Option JValue → ResolvedValue
  | ofResult : CallToolResult → ResolvedValue
deriving DecidableEq, Repr

/-- The caller's promise: settles exactly once. -/
inductive CallerState : Type
  | waiting : CallerState
  | resolvedWith : ResolvedValue → CallerState
  | rejectedWith : McpError → CallerState
deriving DecidableEq, Repr

/-- `resolve(v)` on a promise: a no-op once settled. -/
def promiseResolve : CallerState → ResolvedValue → CallerState
  | .waiting, v => .resolvedWith v
  | s, _ => s

/-- `reject(e)` on a promise: a no-op once settled. -/
def promiseReject : CallerState → McpError → CallerState
  | .waiting, e => .rejectedWith e
  | s, _ => s

/-- The state of one request id: whether `pendingRequests` holds its entry,
whether its expiry timer is still armed, and the caller promise. -/
structure PendingCallState where
  pendingPresent : Bool
  timerArmed : Bool
  caller : CallerState
deriving DecidableEq, Repr

/-- The state right after `callTool` inserted the entry and armed the timer
(the `DISPATCHED` state). -/
def dispatchedCall : PendingCallState :=
  { pendingPresent := true, timerArmed := true, caller := .waiting }

/-- The `setTimeout` callback of `callTool`: when the timer fires (it can only
fire while armed), the entry is deleted and the caller is rejected with the
execution-timeout error for the tool name. -/
def timerFire (toolName : String) (s : PendingCallState) : PendingCallState :=
  if s.timerArmed then
    { pendingPresent := false, timerArmed := false
      caller := promiseReject s.caller (.executionTimeout toolName) }
  else s

/-- The `{ status }` acknowledgment returned by `handleClientResponse`. -/
structure RespStatus where
  status : String
deriving DecidableEq, Repr

namespace ClientExecServer

/-- Translation of `ClientExecServer.handleClientResponse`: a missing entry
raises "Request not found"; otherwise the timeout is cleared, the entry is
deleted, and the caller is resolved with `params.result` cast as a
`CallToolResult` — the `success` and `error` fields are not consulted. -/
def handleClientResponse (s : PendingCallState) (p : RespParams) :
    PendingCallState × Except McpError RespStatus :=
  if s.pendingPresent then
    ({ pendingPresent := false, timerArmed := false
       caller := promiseResolve s.caller (.ofJson p.result) },
     .ok { status := "received" })
  else (s, .error .requestNotFound)

/-- Process a sequence of `proxy/tool_response` messages for this request id,
collecting each call's outcome. -/
def runResponses : PendingCallState → List RespParams →
    PendingCallState × List (Except McpError RespStatus)
  | s, [] => (s, [])
  | s, p :: ps =>
      let step := handleClientResponse s p
      let rest := runResponses step.1 ps
      (rest.1, step.2 :: rest.2)

end ClientExecServer

namespace DynServer

/-- The payload `DynServer.handleClientResponse` resolves with: on success a
normalized text payload (the raw string, or the serialized JSON of a
non-string result), on failure a payload with `isError: true` carrying
`params.error || "Unknown error"` — the default is used both when the error
field is absent and when it is the (falsy) empty string. -/
def resolvedValue (p : RespParams) : ResolvedValue :=
  if p.success then
    .ofResult
      { text := match p.result with
          | some (.str s) => s
          | some v => stringifyJValue v
          | none => "undefined"
        isError := false }
  else
    .ofResult
      { text := "Tool execution failed: " ++ jsOr p.error "Unknown error"
        isError := true }

/-- Translation of `DynServer.handleClientResponse`: a missing entry raises
"Request not found"; otherwise the timeout is cleared, the entry deleted, and
the caller resolved (never rejected) with the normalized payload. -/
def handleClientResponse (s : PendingCallState) (p : RespParams) :
    PendingCallState × Except McpError RespStatus :=
  if s.pendingPresent then
    ({ pendingPresent := false, timerArmed := false
       caller := promiseResolve s.caller (resolvedValue p) },
     .ok { status := "received" })
  else (s, .error .requestNotFound)

end DynServer

/-! ## Execution agent (`ClientExecClient`)

The agent holds `tools : Map<string, implementation>`; an implementation
either returns a value (possibly `undefined`, modelled as `none`) or throws
with a message. -/

inductive ExecOutcome : Type
  | ok : Option JValue → ExecOutcome
  | threw : String → ExecOutcome

namespace ClientExecClient

structure AgentState where
  clientId : String
  tools : List (String × (JValue → ExecOutcome))

/-- What `handleExecutionNotification` does on the wire: either nothing (the
notification is addressed to a different client id) or one `proxy/tool_response`
request. -/
inductive AgentAction : Type
  | ignored : AgentAction
  | sendResponse : RespParams → AgentAction
deriving DecidableEq, Repr

/-- Translation of `ClientExecClient.handleExecutionNotification`: a client-id
mismatch is ignored; a missing implementation throws internally and is caught,
like any implementation exception, into a failure response carrying the
message; a completed implementation yields a success response.  The function
is total: no implementation failure escapes as a transport-level error. -/
def handleExecutionNotification (st : AgentState) (params : ExecNotifyParams) : AgentAction :=
  if params.clientId ≠ st.clientId then .ignored
  else
    match JsMap.find? st.tools params.toolName with
    | none =>
        .sendResponse
          { id := params.id, success := false, result := none
            error := some ("Tool " ++ params.toolName ++ " not found in client " ++ st.clientId) }
    | some implementation =>
        match implementation params.args with
        | .ok v => .sendResponse { id := params.id, success := true, result := v, error := none }
        | .threw msg =>
            .sendResponse { id := params.id, success := false, result := none, error := some msg }

/-- The list of response-delivery attempts made while handling one
notification; `deliverOk` tells whether the `client.request` delivering the
response succeeds.  A failed delivery is only logged: the attempt list does
not depend on it and nothing is rethrown. -/
def runExecutionNotification (st : AgentState) (params : ExecNotifyParams)
    (_deliverOk : Bool) : List RespParams :=
  match handleExecutionNotification st params with
  | .ignored => []
  | .sendResponse r => [r]

end ClientExecClient

/-! ## Controller/puppet forwarding bridge (`bindPuppet`)

Two generations exist: src/decorators/with_puppet.ts, whose installed
interceptor never forwards the three internal control methods, and the earlier
generation (`PUPPET_METHODS`), whose interceptor has no such guard.  Both are
modelled by `dispatchMsg` with an `internalGuard` flag on the interceptor. -/

/-- A message as seen by `transport.onmessage`: a parseable protocol message
with a method (request or notification), a parseable message without a method
(a response), or one that fails `JSONRPCMessageSchema.safeParse`. -/
inductive WireMsg : Type
  | request : String → JValue → WireMsg
  | response : JValue → WireMsg
  | invalid : String → WireMsg
deriving DecidableEq, Repr

namespace WithPuppet

/-- The three internal methods never forwarded by the with_puppet.ts
interceptor (`proxy/tool_response`, `proxy/execute_tool`,
`client/register_tools`). -/
def internalMethods : List String :=
  ["proxy/tool_response", "proxy/execute_tool", "client/register_tools"]

/-- Default forwarded method set in both generations. -/
def DEFAULT_FORWARDED : List String := ["tools/list", "tools/call"]

/-- The value of `const method = "method" in parsed.data ? parsed.data.method
: null`. -/
def msgMethod? : WireMsg → Option String
  | .request m _ => some m
  | .response _ => none
  | .invalid _ => none

/-- The JavaScript truthiness test `method && methods.includes(method)`: null
and the empty string are falsy. -/
def shouldForward (methodOpt : Option String) (methods : List String) : Bool :=
  match methodOpt with
  | none => false
  | some m => m ≠ "" ∧ m ∈ methods

/-- Whether `method` equals one of the three internal method literals. -/
def isInternalMethod (methodOpt : Option String) : Bool :=
  match methodOpt with
  | none => false
  | some m => m ∈ internalMethods

/-- A controller inbound handler slot: empty (`onmessage` undefined), the
controller's pre-binding handler, or an interceptor installed by
`applyPuppetBinding`, capturing the handler current at bind time.  The Bool
flag is the internal-method guard: true for the with_puppet.ts generation,
false for the `PUPPET_METHODS` generation. -/
inductive CtrlHandler : Type
  | absent : CtrlHandler
  | original : CtrlHandler
  | interceptor : Bool → List String → CtrlHandler → CtrlHandler
deriving DecidableEq, Repr

/-- Where a message handed to a handler ends up. -/
inductive Dest : Type
  | controllerOriginal : Dest
  | puppet : Dest
  | dropped : Dest
deriving DecidableEq, Repr

/-- Dispatch of one inbound message by a controller handler, following the
interceptor body: unparseable messages fall through to the captured handler;
with the guard, internal methods always fall through; a method in the
forwarded set goes to the puppet's handler; everything else falls through.  A
fall-through with nothing captured is dropped (`originalTransportHandler?.`).
-/
def dispatchMsg : CtrlHandler → WireMsg → Dest
  | .absent, _ => .dropped
  | .original, _ => .controllerOriginal
  | .interceptor guard methods captured, m =>
      let fallThrough : Dest := dispatchMsg captured m
      match m with
      | .invalid _ => fallThrough
      | _ =>
          if guard && isInternalMethod (msgMethod? m) then fallThrough
          else if shouldForward (msgMethod? m) methods then .puppet
          else fallThrough

/-- The closure state of one `bindPuppet` call: the controller's current
`onmessage`, whether the puppet's `send` is currently the interceptor, and the
captured originals plus `boundPuppet`. -/
structure BridgeState where
  ctrlOnmessage : CtrlHandler
  puppetSendIntercepted : Bool
  originalTransportHandler : CtrlHandler
  originalPuppetSendCaptured : Bool
  boundPuppet : Bool
deriving DecidableEq, Repr

/-- Translation of `applyPuppetBinding` (both generations, distinguished by
`guard`): capture the puppet's send and the controller's current handler,
install the interceptor on the controller and the relaying send on the
puppet. -/
def applyPuppetBinding (guard : Bool) (methods : List String) (s : BridgeState) : BridgeState :=
  { boundPuppet := true
    originalPuppetSendCaptured := true
    originalTransportHandler := s.ctrlOnmessage
    ctrlOnmessage := .interceptor guard methods s.ctrlOnmessage
    puppetSendIntercepted := true }

/-- Translation of `unbindPuppet`: a no-op when nothing is bound; otherwise
restore the controller handler (when one was captured) and the puppet's send,
then clear the closure references. -/
def unbindPuppet (s : BridgeState) : BridgeState :=
  if s.boundPuppet then
    { ctrlOnmessage :=
        if s.originalTransportHandler = .absent then s.ctrlOnmessage
        else s.originalTransportHandler
      puppetSendIntercepted := if s.originalPuppetSendCaptured then false else s.puppetSendIntercepted
      originalTransportHandler := .absent
      originalPuppetSendCaptured := false
      boundPuppet := false }
  else s

/-- Delivery of one inbound controller message in a bridge state. -/
def controllerDeliver (s : BridgeState) (m : WireMsg) : Dest :=
  dispatchMsg s.ctrlOnmessage m

/-- One outward send as observed on the wire. -/
inductive SendEvent : Type
  | viaControllerTransport : WireMsg → SendEvent
  | viaPuppetOriginal : WireMsg → SendEvent
deriving DecidableEq, Repr

/-- The sends performed by one call of the puppet's `send`: when intercepted,
the message goes through the controller transport's send and then through the
captured pre-binding puppet send; otherwise only the puppet's own send runs. -/
def puppetSend (s : BridgeState) (m : WireMsg) : List SendEvent :=
  if s.puppetSendIntercepted then
    [.viaControllerTransport m] ++
      (if s.originalPuppetSendCaptured then [.viaPuppetOriginal m] else [])
  else [.viaPuppetOriginal m]

end WithPuppet

/-! ## Registry operation sequences and invariants -/

namespace ClientExecServer

/-- The registry-mutating operations of the router: a `client/register_tools`
request, a client disconnect, and static server-side registration. -/
inductive RegOp : Type
  | register : String → List RegToolInput → RegOp
  | unregister : String → RegOp
  | registerSchemas : List RegToolInput → RegOp
deriving DecidableEq, Repr

def applyOp (s : RegState) : RegOp → RegState
  | .register c ts => (handleClientToolRegistration s c ts).1
  | .unregister c => unregisterClientTools s c
  | .registerSchemas ts => registerToolSchemas s ts

def applyOps (s : RegState) (ops : List RegOp) : RegState :=
  ops.foldl applyOp s

/-- Operations coming from actual peers: registrations never claim the
reserved owner id "server", and no static `registerToolSchemas` call occurs. -/
def RegOp.isClientOp : RegOp → Prop
  | .register c _ => c ≠ "server"
  | .unregister _ => True
  | .registerSchemas _ => False

/-- Every key of the tool table has an owner and vice versa. -/
def keysAligned (s : RegState) : Prop :=
  ∀ k, (JsMap.find? s.tools k).isSome ↔ (JsMap.find? s.toolToClient k).isSome

/-- Every name in a session set is a registered key. -/
def sessionSub (s : RegState) : Prop :=
  ∀ c names n, JsMap.find? s.clientTools c = some names → n ∈ names →
    (JsMap.find? s.tools n).isSome

/-- Per-client session sets are pairwise disjoint. -/
def sessionsDisjoint (s : RegState) : Prop :=
  ∀ c₁ c₂ names₁ names₂ n, c₁ ≠ c₂ →
    JsMap.find? s.clientTools c₁ = some names₁ →
    JsMap.find? s.clientTools c₂ = some names₂ →
    n ∈ names₁ → n ∉ names₂

/-- Every name in a client's session set is owned by that client. -/
def sessionsOwned (s : RegState) : Prop :=
  ∀ c names n, JsMap.find? s.clientTools c = some names → n ∈ names →
    JsMap.find? s.toolToClient n = some c

/-- Every key owned by a non-"server" owner is in that owner's session set. -/
def ownersTracked (s : RegState) : Prop :=
  ∀ n c, JsMap.find? s.toolToClient n = some c → c ≠ "server" →
    ∃ names, JsMap.find? s.clientTools c = some names ∧ n ∈ names

/-- No session set is keyed by the reserved owner id "server". -/
def serverSessionFree (s : RegState) : Prop :=
  JsMap.find? s.clientTools "server" = none

/-- The weak registry invariant, preserved by every operation. -/
structure RegInvW (s : RegState) : Prop where
  keys : keysAligned s
  sub : sessionSub s
  disj : sessionsDisjoint s

/-- The full registry invariant, preserved by client operations. -/
structure RegInv (s : RegState) : Prop where
  keys : keysAligned s
  owned : sessionsOwned s
  tracked : ownersTracked s
  sfree : serverSessionFree s

/-- The union of the per-client session sets coincides with the registered
keys whose owner is not the static "server" owner. -/
def sessionUnionMatchesOwnership (s : RegState) : Prop :=
  ∀ n, (∃ c names, JsMap.find? s.clientTools c = some names ∧ n ∈ names) ↔
    (∃ o, JsMap.find? s.toolToClient n = some o ∧ o ≠ "server")

/-- The keys a registration request would use in a given namespacing mode. -/
def newKeys (useNamespacing : Bool) (clientId : String) (ts : List RegToolInput) : List String :=
  ts.map (fun t => getToolName useNamespacing clientId t.name)

end ClientExecServer

/-! ## Lemmas about the Map and Set models -/

namespace JsMap

variable {α : Type}

@[simp]
theorem find?_nil (k : String) : find? ([] : List (String × α)) k = none := rfl

theorem find?_set_self (m : List (String × α)) (k : String) (v : α) :
    find? (set m k v) k = some v := by
  induction m with
  | nil => simp [set, find?]
  | cons p rest ih =>
      obtain ⟨k', v'⟩ := p
      by_cases h : k' = k
      · simp [set, h, find?]
      · simp [set, h, find?, ih]

theorem find?_set_ne (m : List (String × α)) (k k' : String) (v : α)
    (h : k' ≠ k) : find? (set m k v) k' = find? m k' := by
  induction m with
  | nil =>
      have : ¬ (k = k') := fun hh => h hh.symm
      simp [set, find?, this]
  | cons p rest ih =>
      obtain ⟨k₀, v₀⟩ := p
      by_cases h₀ : k₀ = k
      · subst h₀
        have : ¬ (k₀ = k') := fun hh => h hh.symm
        simp [set, find?, this]
      · by_cases h₁ : k₀ = k'
        · simp [set, h₀, find?, h₁, h]
        · simp [set, h₀, find?, h₁, ih]

theorem find?_erase_self (m : List (String × α)) (k : String) :
    find? (erase m k) k = none := by
  induction m with
  | nil => simp [erase, find?]
  | cons p rest ih =>
      obtain ⟨k₀, v₀⟩ := p
      by_cases h : k₀ = k
      · simpa [erase, h] using ih
      · simpa [erase, find?, h] using ih

theorem find?_erase_ne (m : List (String × α)) (k k' : String) (h : k' ≠ k) :
    find? (erase m k) k' = find? m k' := by
  induction m with
  | nil => simp [erase]
  | cons p rest ih =>
      obtain ⟨k₀, v₀⟩ := p
      by_cases h₀ : k₀ = k
      · subst h₀
        have : ¬ (k₀ = k') := fun hh => h hh.symm
        simpa [erase, find?, this] using ih
      · by_cases h₁ : k₀ = k'
        · simp [erase, find?, h₀, h₁, h]
        · simpa [erase, find?, h₀, h₁] using ih

theorem find?_eraseAll (m : List (String × α)) (ks : List String) (k : String) :
    find? (eraseAll m ks) k = if k ∈ ks then none else find? m k := by
  induction ks generalizing m with
  | nil => simp [eraseAll]
  | cons a rest ih =>
      by_cases h : k = a
      · subst h
        by_cases hm : k ∈ rest
        · simp [eraseAll, ih, hm]
        · simp [eraseAll, ih, hm, find?_erase_self]
      · by_cases hm : k ∈ rest
        · simp [eraseAll, ih, hm, h]
        · simp [eraseAll, ih, hm, h, find?_erase_ne m a k h]

end JsMap

theorem mem_addToSet (s : List String) (x y : String) :
    y ∈ addToSet s x ↔ y ∈ s ∨ y = x := by
  by_cases h : x ∈ s
  · constructor
    · intro hy
      exact Or.inl (by simpa [addToSet, h] using hy)
    · intro hy
      rcases hy with hy | hy
      · simpa [addToSet, h] using hy
      · subst hy; simp [addToSet, h]
  · simp [addToSet, h]

theorem mem_addToSet_left (s : List String) (x y : String) (h : y ∈ s) :
    y ∈ addToSet s x :=
  (mem_addToSet s x y).2 (Or.inl h)

/-! ## Lemmas about the registration loop -/

namespace ClientExecServer

theorem regToolStep_useNamespacing (clientId : String) (acc : RegAcc) (t : RegToolInput) :
    (regToolStep clientId acc t).st.useNamespacing = acc.st.useNamespacing := by
  cases hb : (JsMap.find? acc.st.tools (getToolName acc.st.useNamespacing clientId t.name)).isSome <;>
    simp [regToolStep, hb]

theorem regToolStep_clientTools (clientId : String) (acc : RegAcc) (t : RegToolInput) :
    (regToolStep clientId acc t).st.clientTools = acc.st.clientTools := by
  cases hb : (JsMap.find? acc.st.tools (getToolName acc.st.useNamespacing clientId t.name)).isSome <;>
    simp [regToolStep, hb]

theorem regFold_useNamespacing (clientId : String) (ts : List RegToolInput) (acc : RegAcc) :
    (ts.foldl (regToolStep clientId) acc).st.useNamespacing = acc.st.useNamespacing := by
  induction ts generalizing acc with
  | nil => rfl
  | cons t rest ih =>
      rw [List.foldl_cons, ih]
      cases hb : (JsMap.find? acc.st.tools (getToolName acc.st.useNamespacing clientId t.name)).isSome <;>
        simp [regToolStep, hb]

theorem regFold_clientTools (clientId : String) (ts : List RegToolInput) (acc : RegAcc) :
    (ts.foldl (regToolStep clientId) acc).st.clientTools = acc.st.clientTools := by
  induction ts generalizing acc with
  | nil => rfl
  | cons t rest ih =>
      rw [List.foldl_cons, ih]
      cases hb : (JsMap.find? acc.st.tools (getToolName acc.st.useNamespacing clientId t.name)).isSome <;>
        simp [regToolStep, hb]

/-- Existing tool-table entries are never overwritten by the loop. -/
theorem regFold_tools_preserve (clientId : String) (ts : List RegToolInput) (acc : RegAcc)
    (k : String) (v : Tool) (h : JsMap.find? acc.st.tools k = some v) :
    JsMap.find? (ts.foldl (regToolStep clientId) acc).st.tools k = some v := by
  induction ts generalizing acc with
  | nil => exact h
  | cons t rest ih =>
      rw [List.foldl_cons]
      cases hb : (JsMap.find? acc.st.tools (getToolName acc.st.useNamespacing clientId t.name)).isSome with
      | true => exact ih _ (by simpa [regToolStep, hb] using h)
      | false =>
          apply ih
          have hne : k ≠ getToolName acc.st.useNamespacing clientId t.name := by
            intro he
            rw [← he, h] at hb
            simp at hb
          simp [regToolStep, hb, JsMap.find?_set_ne _ _ _ _ hne, h]

theorem regFold_tools_mono (clientId : String) (ts : List RegToolInput) (acc : RegAcc)
    (k : String) (h : (JsMap.find? acc.st.tools k).isSome) :
    (JsMap.find? (ts.foldl (regToolStep clientId) acc).st.tools k).isSome := by
  obtain ⟨v, hv⟩ := Option.isSome_iff_exists.1 h
  rw [regFold_tools_preserve clientId ts acc k v hv]
  rfl

/-- Keys-alignment of the two tool maps is preserved through the loop. -/
theorem regFold_keysAligned (clientId : String) (ts : List RegToolInput) (acc : RegAcc)
    (h : keysAligned acc.st) : keysAligned (ts.foldl (regToolStep clientId) acc).st := by
  induction ts generalizing acc with
  | nil => exact h
  | cons t rest ih =>
      rw [List.foldl_cons]
      cases hb : (JsMap.find? acc.st.tools (getToolName acc.st.useNamespacing clientId t.name)).isSome with
      | true => exact ih _ (by simpa [regToolStep, hb] using h)
      | false =>
          apply ih
          intro k
          by_cases hk : k = getToolName acc.st.useNamespacing clientId t.name
          · subst hk
            simp [regToolStep, hb, JsMap.find?_set_self]
          · simp [regToolStep, hb, JsMap.find?_set_ne _ _ _ _ hk, h k]

/-- Existing ownership entries are never overwritten by the loop, given the
maps are key-aligned. -/
theorem regFold_ttc_preserve (clientId : String) (ts : List RegToolInput) (acc : RegAcc)
    (k : String) (v : String) (ha : keysAligned acc.st)
    (h : JsMap.find? acc.st.toolToClient k = some v) :
    JsMap.find? (ts.foldl (regToolStep clientId) acc).st.toolToClient k = some v := by
  induction ts generalizing acc with
  | nil => exact h
  | cons t rest ih =>
      rw [List.foldl_cons]
      cases hb : (JsMap.find? acc.st.tools (getToolName acc.st.useNamespacing clientId t.name)).isSome with
      | true =>
          exact ih _ (by simpa [regToolStep, hb] using ha) (by simpa [regToolStep, hb] using h)
      | false =>
          have hne : k ≠ getToolName acc.st.useNamespacing clientId t.name := by
            intro he
            have : (JsMap.find? acc.st.tools k).isSome := (ha k).2 (by rw [h]; rfl)
            rw [he] at this
            rw [this] at hb
            cases hb
          apply ih
          · intro k'
            by_cases hk : k' = getToolName acc.st.useNamespacing clientId t.name
            · subst hk
              simp [regToolStep, hb, JsMap.find?_set_self]
            · simp [regToolStep, hb, JsMap.find?_set_ne _ _ _ _ hk, ha k']
          · simp [regToolStep, hb, JsMap.find?_set_ne _ _ _ _ hne, h]

/-- Keys not used by the request are completely untouched by the loop. -/
theorem regFold_untouched (clientId : String) (ts : List RegToolInput) (acc : RegAcc)
    (k : String) (h : k ∉ newKeys acc.st.useNamespacing clientId ts) :
    JsMap.find? (ts.foldl (regToolStep clientId) acc).st.tools k = JsMap.find? acc.st.tools k ∧
    JsMap.find? (ts.foldl (regToolStep clientId) acc).st.toolToClient k
      = JsMap.find? acc.st.toolToClient k ∧
    (k ∈ (ts.foldl (regToolStep clientId) acc).clientToolNames ↔ k ∈ acc.clientToolNames) := by
  induction ts generalizing acc with
  | nil => exact ⟨rfl, rfl, Iff.rfl⟩
  | cons t rest ih =>
      rw [List.foldl_cons]
      have hkt : k ≠ getToolName acc.st.useNamespacing clientId t.name := by
        intro he
        exact h (by simp [newKeys, he])
      have hns : (regToolStep clientId acc t).st.useNamespacing = acc.st.useNamespacing := by
        cases hb : (JsMap.find? acc.st.tools (getToolName acc.st.useNamespacing clientId t.name)).isSome <;>
          simp [regToolStep, hb]
      have hrest : k ∉ newKeys (regToolStep clientId acc t).st.useNamespacing clientId rest := by
        rw [hns]
        intro hk
        refine h ?_
        simp only [newKeys, List.map_cons, List.mem_cons]
        exact Or.inr (by simpa [newKeys] using hk)
      have hmain := ih (regToolStep clientId acc t) hrest
      cases hb : (JsMap.find? acc.st.tools (getToolName acc.st.useNamespacing clientId t.name)).isSome with
      | true =>
          have hst : (regToolStep clientId acc t).st = acc.st := by simp [regToolStep, hb]
          have hcn : (regToolStep clientId acc t).clientToolNames = acc.clientToolNames := by
            simp [regToolStep, hb]
          rw [hst, hcn] at hmain
          exact hmain
      | false =>
          have hf1 : JsMap.find? (regToolStep clientId acc t).st.tools k
              = JsMap.find? acc.st.tools k := by
            simp only [regToolStep, hb, Bool.false_eq_true, if_false]
            exact JsMap.find?_set_ne _ _ _ _ hkt
          have hf2 : JsMap.find? (regToolStep clientId acc t).st.toolToClient k
              = JsMap.find? acc.st.toolToClient k := by
            simp only [regToolStep, hb, Bool.false_eq_true, if_false]
            exact JsMap.find?_set_ne _ _ _ _ hkt
          have hf3 : k ∈ (regToolStep clientId acc t).clientToolNames ↔
              k ∈ acc.clientToolNames := by
            simp only [regToolStep, hb, Bool.false_eq_true, if_false]
            rw [mem_addToSet]
            simp [hkt]
          exact ⟨hmain.1.trans hf1, hmain.2.1.trans hf2, hmain.2.2.trans hf3⟩

theorem regFold_conflicts_mono (clientId : String) (ts : List RegToolInput) (acc : RegAcc)
    (c : String) (h : c ∈ acc.conflicts) :
    c ∈ (ts.foldl (regToolStep clientId) acc).conflicts := by
  induction ts generalizing acc with
  | nil => exact h
  | cons t rest ih =>
      rw [List.foldl_cons]
      apply ih
      cases hb : (JsMap.find? acc.st.tools (getToolName acc.st.useNamespacing clientId t.name)).isSome <;>
        simp [regToolStep, hb, h]

/-- A request tool whose key already exists in the evolving table ends up in
`conflicts`. -/
theorem regFold_conflict_of_existing (clientId : String) (ts : List RegToolInput) (acc : RegAcc)
    (t : RegToolInput) (ht : t ∈ ts)
    (h : (JsMap.find? acc.st.tools (getToolName acc.st.useNamespacing clientId t.name)).isSome) :
    t.name ∈ (ts.foldl (regToolStep clientId) acc).conflicts := by
  induction ts generalizing acc with
  | nil => cases ht
  | cons t' rest ih =>
      rw [List.foldl_cons]
      have hns : (regToolStep clientId acc t').st.useNamespacing = acc.st.useNamespacing := by
        cases hb : (JsMap.find? acc.st.tools (getToolName acc.st.useNamespacing clientId t'.name)).isSome <;>
          simp [regToolStep, hb]
      rcases List.mem_cons.1 ht with he | hrest
      · subst he
        cases hb : (JsMap.find? acc.st.tools (getToolName acc.st.useNamespacing clientId t.name)).isSome with
        | true =>
            apply regFold_conflicts_mono
            simp [regToolStep, hb]
        | false => rw [hb] at h; cases h
      · apply ih _ hrest
        rw [hns]
        exact regFold_tools_mono clientId [t'] acc _ h

/-- With namespacing off, a raw name whose key pre-exists is never pushed to
`registeredTools`. -/
theorem regFold_registered_not (clientId : String) (ts : List RegToolInput) (acc : RegAcc)
    (name : String) (hns : acc.st.useNamespacing = false)
    (h : (JsMap.find? acc.st.tools name).isSome)
    (hn : name ∉ acc.registeredTools) :
    name ∉ (ts.foldl (regToolStep clientId) acc).registeredTools := by
  induction ts generalizing acc with
  | nil => exact hn
  | cons t rest ih =>
      rw [List.foldl_cons]
      have hkey : getToolName acc.st.useNamespacing clientId t.name = t.name := by
        simp [getToolName, hns]
      cases hb : (JsMap.find? acc.st.tools (getToolName acc.st.useNamespacing clientId t.name)).isSome with
      | true =>
          apply ih
          · rw [regToolStep_useNamespacing]; exact hns
          · simpa [regToolStep, hb] using h
          · simpa [regToolStep, hb] using hn
      | false =>
          have hne : t.name ≠ name := by
            intro he
            rw [hkey, he, h] at hb
            cases hb
          apply ih
          · rw [regToolStep_useNamespacing]; exact hns
          · have hq : name ≠ getToolName acc.st.useNamespacing clientId t.name := by
              rw [hkey]; exact fun hh => hne hh.symm
            simp only [regToolStep, hb, Bool.false_eq_true, if_false]
            rw [JsMap.find?_set_ne _ _ _ _ hq]
            exact h
          · intro hmem
            have : name ∈ acc.registeredTools ++ [t.name] := by
              simpa [regToolStep, hb] using hmem
            rcases List.mem_append.1 this with hl | hr
            · exact hn hl
            · exact hne (List.mem_singleton.1 hr).symm

/-- Names collected in `clientToolNames` are owned by the registering client
in the evolving ownership map. -/
theorem regFold_names_owned (clientId : String) (ts : List RegToolInput) (acc : RegAcc)
    (h : ∀ k ∈ acc.clientToolNames, JsMap.find? acc.st.toolToClient k = some clientId) :
    ∀ k ∈ (ts.foldl (regToolStep clientId) acc).clientToolNames,
      JsMap.find? (ts.foldl (regToolStep clientId) acc).st.toolToClient k = some clientId := by
  induction ts generalizing acc with
  | nil => exact h
  | cons t rest ih =>
      rw [List.foldl_cons]
      apply ih
      intro k hk
      cases hb : (JsMap.find? acc.st.tools (getToolName acc.st.useNamespacing clientId t.name)).isSome with
      | true =>
          have hk' : k ∈ acc.clientToolNames := by simpa [regToolStep, hb] using hk
          have := h k hk'
          simpa [regToolStep, hb] using this
      | false =>
          have hk' : k ∈ addToSet acc.clientToolNames (getToolName acc.st.useNamespacing clientId t.name) := by
            simpa [regToolStep, hb] using hk
          rcases (mem_addToSet _ _ _).1 hk' with hl | hr
          · by_cases hkk : k = getToolName acc.st.useNamespacing clientId t.name
            · subst hkk
              simp [regToolStep, hb, JsMap.find?_set_self]
            · have := h k hl
              simp only [regToolStep, hb, Bool.false_eq_true, if_false]
              rw [JsMap.find?_set_ne _ _ _ _ hkk]
              exact this
          · subst hr
            simp [regToolStep, hb, JsMap.find?_set_self]

/-- Names collected in `clientToolNames` are present in the evolving tool
table. -/
theorem regFold_names_present (clientId : String) (ts : List RegToolInput) (acc : RegAcc)
    (h : ∀ k ∈ acc.clientToolNames, (JsMap.find? acc.st.tools k).isSome) :
    ∀ k ∈ (ts.foldl (regToolStep clientId) acc).clientToolNames,
      (JsMap.find? (ts.foldl (regToolStep clientId) acc).st.tools k).isSome := by
  induction ts generalizing acc with
  | nil => exact h
  | cons t rest ih =>
      rw [List.foldl_cons]
      apply ih
      intro k hk
      cases hb : (JsMap.find? acc.st.tools (getToolName acc.st.useNamespacing clientId t.name)).isSome with
      | true =>
          have hk' : k ∈ acc.clientToolNames := by simpa [regToolStep, hb] using hk
          have := h k hk'
          simpa [regToolStep, hb] using this
      | false =>
          have hk' : k ∈ addToSet acc.clientToolNames (getToolName acc.st.useNamespacing clientId t.name) := by
            simpa [regToolStep, hb] using hk
          rcases (mem_addToSet _ _ _).1 hk' with hl | hr
          · by_cases hkk : k = getToolName acc.st.useNamespacing clientId t.name
            · subst hkk
              simp [regToolStep, hb, JsMap.find?_set_self]
            · have := h k hl
              simp only [regToolStep, hb, Bool.false_eq_true, if_false]
              rw [JsMap.find?_set_ne _ _ _ _ hkk]
              exact this
          · subst hr
            simp [regToolStep, hb, JsMap.find?_set_self]

theorem regFold_names_mono (clientId : String) (ts : List RegToolInput) (acc : RegAcc)
    (k : String) (h : k ∈ acc.clientToolNames) :
    k ∈ (ts.foldl (regToolStep clientId) acc).clientToolNames := by
  induction ts generalizing acc with
  | nil => exact h
  | cons t rest ih =>
      rw [List.foldl_cons]
      apply ih
      cases hb : (JsMap.find? acc.st.tools (getToolName acc.st.useNamespacing clientId t.name)).isSome with
      | true => simpa [regToolStep, hb] using h
      | false =>
          simp only [regToolStep, hb, Bool.false_eq_true, if_false]
          exact mem_addToSet_left _ _ _ h

/-- Any ownership entry after the loop either pre-existed or belongs to the
registering client and is recorded in its new session set. -/
theorem regFold_ttc_source (clientId : String) (ts : List RegToolInput) (acc : RegAcc)
    (k v : String)
    (h : JsMap.find? (ts.foldl (regToolStep clientId) acc).st.toolToClient k = some v) :
    JsMap.find? acc.st.toolToClient k = some v ∨
      (v = clientId ∧ k ∈ (ts.foldl (regToolStep clientId) acc).clientToolNames) := by
  induction ts generalizing acc with
  | nil => exact Or.inl h
  | cons t rest ih =>
      rw [List.foldl_cons] at h ⊢
      rcases ih (regToolStep clientId acc t) h with hpre | hnew
      · cases hb : (JsMap.find? acc.st.tools (getToolName acc.st.useNamespacing clientId t.name)).isSome with
        | true =>
            left
            simpa [regToolStep, hb] using hpre
        | false =>
            by_cases hkk : k = getToolName acc.st.useNamespacing clientId t.name
            · have hself : JsMap.find? (regToolStep clientId acc t).st.toolToClient k
                  = some clientId := by
                simp only [regToolStep, hb, Bool.false_eq_true, if_false]
                rw [hkk]
                exact JsMap.find?_set_self _ _ _
              rw [hself] at hpre
              right
              refine ⟨(Option.some_inj.1 hpre).symm, ?_⟩
              apply regFold_names_mono
              simp only [regToolStep, hb, Bool.false_eq_true, if_false]
              exact (mem_addToSet _ _ _).2 (Or.inr hkk)
            · left
              have := hpre
              simp only [regToolStep, hb, Bool.false_eq_true, if_false] at this
              rwa [JsMap.find?_set_ne _ _ _ _ hkk] at this
      · exact Or.inr hnew

/-- Any name in the new session set either pre-existed in the accumulator or
was absent from the accumulator's tool table. -/
theorem regFold_names_source (clientId : String) (ts : List RegToolInput) (acc : RegAcc)
    (k : String) (h : k ∈ (ts.foldl (regToolStep clientId) acc).clientToolNames) :
    k ∈ acc.clientToolNames ∨ JsMap.find? acc.st.tools k = none := by
  induction ts generalizing acc with
  | nil => exact Or.inl h
  | cons t rest ih =>
      rw [List.foldl_cons] at h
      rcases ih (regToolStep clientId acc t) h with hpre | habsent
      · cases hb : (JsMap.find? acc.st.tools (getToolName acc.st.useNamespacing clientId t.name)).isSome with
        | true =>
            left
            simpa [regToolStep, hb] using hpre
        | false =>
            have : k ∈ addToSet acc.clientToolNames (getToolName acc.st.useNamespacing clientId t.name) := by
              simpa [regToolStep, hb] using hpre
            rcases (mem_addToSet _ _ _).1 this with hl | hr
            · exact Or.inl hl
            · subst hr
              right
              exact Option.not_isSome_iff_eq_none.1 (by rw [hb]; simp)
      · cases hb : (JsMap.find? acc.st.tools (getToolName acc.st.useNamespacing clientId t.name)).isSome with
        | true =>
            right
            rwa [show (regToolStep clientId acc t).st.tools = acc.st.tools from by
              simp [regToolStep, hb]] at habsent
        | false =>
            by_cases hkk : k = getToolName acc.st.useNamespacing clientId t.name
            · subst hkk
              right
              exact Option.not_isSome_iff_eq_none.1 (by rw [hb]; simp)
            · right
              have := habsent
              simp only [regToolStep, hb, Bool.false_eq_true, if_false] at this
              rwa [JsMap.find?_set_ne _ _ _ _ hkk] at this

/-! ## Invariant preservation -/

theorem handleClientToolRegistration_fst (s : RegState) (clientId : String)
    (ts : List RegToolInput) :
    (handleClientToolRegistration s clientId ts).1 =
      { (ts.foldl (regToolStep clientId) ⟨unregisterClientTools s clientId, [], [], []⟩).st with
        clientTools := JsMap.set
          (ts.foldl (regToolStep clientId) ⟨unregisterClientTools s clientId, [], [], []⟩).st.clientTools
          clientId
          (ts.foldl (regToolStep clientId) ⟨unregisterClientTools s clientId, [], [], []⟩).clientToolNames } :=
  rfl

theorem unregister_clientTools_self (s : RegState) (c : String) :
    JsMap.find? (unregisterClientTools s c).clientTools c = none := by
  cases hs : JsMap.find? s.clientTools c with
  | none => simp [unregisterClientTools, hs]
  | some names => simp [unregisterClientTools, hs, JsMap.find?_erase_self]

theorem regInv_unregister (s : RegState) (c : String) (h : RegInv s) :
    RegInv (unregisterClientTools s c) := by
  cases hs : JsMap.find? s.clientTools c with
  | none =>
      have : unregisterClientTools s c = s := by simp [unregisterClientTools, hs]
      rw [this]; exact h
  | some names =>
      have e1 : (unregisterClientTools s c).tools = JsMap.eraseAll s.tools names := by
        simp [unregisterClientTools, hs]
      have e2 : (unregisterClientTools s c).toolToClient = JsMap.eraseAll s.toolToClient names := by
        simp [unregisterClientTools, hs]
      have e3 : (unregisterClientTools s c).clientTools = JsMap.erase s.clientTools c := by
        simp [unregisterClientTools, hs]
      constructor
      · intro k
        rw [e1, e2, JsMap.find?_eraseAll, JsMap.find?_eraseAll]
        by_cases hk : k ∈ names
        · simp [hk]
        · simp [hk, h.keys k]
      · intro c' names' n hc' hn
        rw [e3] at hc'
        by_cases hcc : c' = c
        · subst hcc; rw [JsMap.find?_erase_self] at hc'; cases hc'
        · rw [JsMap.find?_erase_ne _ _ _ hcc] at hc'
          have hown := h.owned c' names' n hc' hn
          have hnn : n ∉ names := by
            intro hmem
            have hcown := h.owned c names n hs hmem
            exact hcc (Option.some_inj.1 (hown.symm.trans hcown))
          rw [e2, JsMap.find?_eraseAll]
          simp [hnn, hown]
      · intro n o hno hns2
        rw [e2, JsMap.find?_eraseAll] at hno
        by_cases hmm : n ∈ names
        · rw [if_pos hmm] at hno; cases hno
        · rw [if_neg hmm] at hno
          rcases h.tracked n o hno hns2 with ⟨names', hfind, hmem'⟩
          have hoc : o ≠ c := by
            intro he
            subst he
            have : names' = names := Option.some_inj.1 (hfind.symm.trans hs)
            exact hmm (this ▸ hmem')
          refine ⟨names', ?_, hmem'⟩
          rw [e3, JsMap.find?_erase_ne _ _ _ hoc]
          exact hfind
      · show JsMap.find? (unregisterClientTools s c).clientTools "server" = none
        rw [e3]
        by_cases hcs : "server" = c
        · rw [hcs, JsMap.find?_erase_self]
        · rw [JsMap.find?_erase_ne _ _ _ hcs]
          exact h.sfree

theorem regInv_register (s : RegState) (clientId : String) (ts : List RegToolInput)
    (h : RegInv s) (hc : clientId ≠ "server") :
    RegInv (handleClientToolRegistration s clientId ts).1 := by
  have h1 : RegInv (unregisterClientTools s clientId) := regInv_unregister s clientId h
  rw [handleClientToolRegistration_fst]
  have hka : keysAligned
      (ts.foldl (regToolStep clientId) ⟨unregisterClientTools s clientId, [], [], []⟩).st :=
    regFold_keysAligned clientId ts _ h1.keys
  have hclT : (ts.foldl (regToolStep clientId)
        ⟨unregisterClientTools s clientId, [], [], []⟩).st.clientTools
      = (unregisterClientTools s clientId).clientTools :=
    regFold_clientTools clientId ts _
  have hSelfNone : JsMap.find? (unregisterClientTools s clientId).clientTools clientId = none :=
    unregister_clientTools_self s clientId
  constructor
  · intro k
    exact hka k
  · intro c' names' n hc' hn
    by_cases hcc : c' = clientId
    · subst hcc
      rw [JsMap.find?_set_self] at hc'
      have hnames : (ts.foldl (regToolStep c')
          ⟨unregisterClientTools s c', [], [], []⟩).clientToolNames = names' :=
        Option.some_inj.1 hc'
      exact regFold_names_owned c' ts _ (by intro k hk; cases hk) n (hnames ▸ hn)
    · rw [JsMap.find?_set_ne _ _ _ _ hcc, hclT] at hc'
      have hsown := h1.owned c' names' n hc' hn
      exact regFold_ttc_preserve clientId ts _ n c' h1.keys hsown
  · intro n o hno hns2
    rcases regFold_ttc_source clientId ts _ n o hno with hpre | ⟨ho, hmem⟩
    · rcases h1.tracked n o hpre hns2 with ⟨names', hfind, hmem'⟩
      have hoc : o ≠ clientId := by
        intro he
        subst he
        rw [hSelfNone] at hfind
        cases hfind
      refine ⟨names', ?_, hmem'⟩
      rw [JsMap.find?_set_ne _ _ _ _ hoc, hclT]
      exact hfind
    · subst ho
      exact ⟨_, JsMap.find?_set_self _ _ _, hmem⟩
  · show JsMap.find? (JsMap.set _ clientId _) "server" = none
    rw [JsMap.find?_set_ne _ _ _ _ (fun hh => hc hh.symm), hclT]
    exact h1.sfree

theorem regInvW_unregister (s : RegState) (c : String) (h : RegInvW s) :
    RegInvW (unregisterClientTools s c) := by
  cases hs : JsMap.find? s.clientTools c with
  | none =>
      have : unregisterClientTools s c = s := by simp [unregisterClientTools, hs]
      rw [this]; exact h
  | some names =>
      have e1 : (unregisterClientTools s c).tools = JsMap.eraseAll s.tools names := by
        simp [unregisterClientTools, hs]
      have e2 : (unregisterClientTools s c).toolToClient = JsMap.eraseAll s.toolToClient names := by
        simp [unregisterClientTools, hs]
      have e3 : (unregisterClientTools s c).clientTools = JsMap.erase s.clientTools c := by
        simp [unregisterClientTools, hs]
      constructor
      · intro k
        rw [e1, e2, JsMap.find?_eraseAll, JsMap.find?_eraseAll]
        by_cases hk : k ∈ names
        · simp [hk]
        · simp [hk, h.keys k]
      · intro c' names' n hc' hn
        rw [e3] at hc'
        by_cases hcc : c' = c
        · subst hcc; rw [JsMap.find?_erase_self] at hc'; cases hc'
        · rw [JsMap.find?_erase_ne _ _ _ hcc] at hc'
          have hnn : n ∉ names := h.disj c' c names' names n hcc hc' hs hn
          rw [e1, JsMap.find?_eraseAll, if_neg hnn]
          exact h.sub c' names' n hc' hn
      · intro c₁ c₂ names₁ names₂ n h12 h1 h2
        rw [e3] at h1 h2
        by_cases hc1 : c₁ = c
        · subst hc1; rw [JsMap.find?_erase_self] at h1; cases h1
        · by_cases hc2 : c₂ = c
          · subst hc2; rw [JsMap.find?_erase_self] at h2; cases h2
          · rw [JsMap.find?_erase_ne _ _ _ hc1] at h1
            rw [JsMap.find?_erase_ne _ _ _ hc2] at h2
            exact h.disj c₁ c₂ names₁ names₂ n h12 h1 h2

theorem regInvW_register (s : RegState) (clientId : String) (ts : List RegToolInput)
    (h : RegInvW s) :
    RegInvW (handleClientToolRegistration s clientId ts).1 := by
  have h1 : RegInvW (unregisterClientTools s clientId) := regInvW_unregister s clientId h
  rw [handleClientToolRegistration_fst]
  have hka : keysAligned
      (ts.foldl (regToolStep clientId) ⟨unregisterClientTools s clientId, [], [], []⟩).st :=
    regFold_keysAligned clientId ts _ h1.keys
  have hclT : (ts.foldl (regToolStep clientId)
        ⟨unregisterClientTools s clientId, [], [], []⟩).st.clientTools
      = (unregisterClientTools s clientId).clientTools :=
    regFold_clientTools clientId ts _
  constructor
  · intro k
    exact hka k
  · intro c' names' n hc' hn
    by_cases hcc : c' = clientId
    · subst hcc
      rw [JsMap.find?_set_self] at hc'
      have hnames : (ts.foldl (regToolStep c')
          ⟨unregisterClientTools s c', [], [], []⟩).clientToolNames = names' :=
        Option.some_inj.1 hc'
      exact regFold_names_present c' ts _ (by intro k hk; cases hk) n (hnames ▸ hn)
    · rw [JsMap.find?_set_ne _ _ _ _ hcc, hclT] at hc'
      have hsub := h1.sub c' names' n hc' hn
      exact regFold_tools_mono clientId ts _ n hsub
  · intro c₁ c₂ names₁ names₂ n h12 hf1 hf2 hn1 hn2
    by_cases hc1 : c₁ = clientId
    · subst hc1
      rw [JsMap.find?_set_self] at hf1
      rw [JsMap.find?_set_ne _ _ _ _ h12.symm, hclT] at hf2
      have hnames : (ts.foldl (regToolStep c₁)
          ⟨unregisterClientTools s c₁, [], [], []⟩).clientToolNames = names₁ :=
        Option.some_inj.1 hf1
      rcases regFold_names_source c₁ ts _ n (hnames ▸ hn1) with habs | hnone
      · cases habs
      · have := h1.sub c₂ names₂ n hf2 hn2
        rw [hnone] at this
        cases this
    · by_cases hc2 : c₂ = clientId
      · subst hc2
        rw [JsMap.find?_set_self] at hf2
        rw [JsMap.find?_set_ne _ _ _ _ hc1, hclT] at hf1
        have hnames : (ts.foldl (regToolStep c₂)
            ⟨unregisterClientTools s c₂, [], [], []⟩).clientToolNames = names₂ :=
          Option.some_inj.1 hf2
        rcases regFold_names_source c₂ ts _ n (hnames ▸ hn2) with habs | hnone
        · cases habs
        · have := h1.sub c₁ names₁ n hf1 hn1
          rw [hnone] at this
          cases this
      · rw [JsMap.find?_set_ne _ _ _ _ hc1, hclT] at hf1
        rw [JsMap.find?_set_ne _ _ _ _ hc2, hclT] at hf2
        exact h1.disj c₁ c₂ names₁ names₂ n h12 hf1 hf2 hn1 hn2

theorem find?_set_isSome_mono {α : Type} (m : List (String × α)) (k k' : String) (v : α)
    (h : (JsMap.find? m k).isSome) : (JsMap.find? (JsMap.set m k' v) k).isSome := by
  by_cases he : k = k'
  · subst he; rw [JsMap.find?_set_self]; rfl
  · rw [JsMap.find?_set_ne _ _ _ _ he]; exact h

theorem registerToolSchemas_cons (s : RegState) (t : RegToolInput) (rest : List RegToolInput) :
    registerToolSchemas s (t :: rest) = registerToolSchemas
      { s with
        tools := JsMap.set s.tools (getToolName s.useNamespacing "server" t.name)
          { name := t.name, description := t.description, inputSchema := t.inputSchema }
        toolToClient :=
          JsMap.set s.toolToClient (getToolName s.useNamespacing "server" t.name) "server" }
      rest := rfl

theorem registerToolSchemas_clientTools (s : RegState) (ts : List RegToolInput) :
    (registerToolSchemas s ts).clientTools = s.clientTools := by
  induction ts generalizing s with
  | nil => rfl
  | cons t rest ih => rw [registerToolSchemas_cons, ih]

theorem registerToolSchemas_tools_mono (s : RegState) (ts : List RegToolInput) (k : String)
    (h : (JsMap.find? s.tools k).isSome) :
    (JsMap.find? (registerToolSchemas s ts).tools k).isSome := by
  induction ts generalizing s with
  | nil => exact h
  | cons t rest ih =>
      rw [registerToolSchemas_cons]
      exact ih _ (find?_set_isSome_mono _ _ _ _ h)

theorem registerToolSchemas_keysAligned (s : RegState) (ts : List RegToolInput)
    (h : keysAligned s) : keysAligned (registerToolSchemas s ts) := by
  induction ts generalizing s with
  | nil => exact h
  | cons t rest ih =>
      rw [registerToolSchemas_cons]
      apply ih
      intro k
      by_cases hk : k = getToolName s.useNamespacing "server" t.name
      · subst hk
        simp [JsMap.find?_set_self]
      · simp only [JsMap.find?_set_ne _ _ _ _ hk]
        exact h k

theorem regInvW_schemas (s : RegState) (ts : List RegToolInput) (h : RegInvW s) :
    RegInvW (registerToolSchemas s ts) := by
  constructor
  · exact registerToolSchemas_keysAligned s ts h.keys
  · intro c names n hc hn
    rw [registerToolSchemas_clientTools] at hc
    exact registerToolSchemas_tools_mono s ts n (h.sub c names n hc hn)
  · intro c₁ c₂ names₁ names₂ n h12 h1 h2
    rw [registerToolSchemas_clientTools] at h1 h2
    exact h.disj c₁ c₂ names₁ names₂ n h12 h1 h2

theorem regInv_initial (ns : Bool) : RegInv (initialRegState ns) := by
  constructor
  · intro k; simp [initialRegState]
  · intro c names n hc hn; simp [initialRegState] at hc
  · intro n c hn hc; simp [initialRegState] at hn
  · simp [initialRegState, serverSessionFree]

theorem regInv_to_W (s : RegState) (h : RegInv s) : RegInvW s := by
  constructor
  · exact h.keys
  · intro c names n hc hn
    exact (h.keys n).2 (by rw [h.owned c names n hc hn]; rfl)
  · intro c₁ c₂ names₁ names₂ n h12 h1 h2 hn1 hn2
    have ho1 := h.owned c₁ names₁ n h1 hn1
    have ho2 := h.owned c₂ names₂ n h2 hn2
    exact h12 (Option.some_inj.1 (ho1.symm.trans ho2))

theorem regInvW_applyOp (s : RegState) (op : RegOp) (h : RegInvW s) :
    RegInvW (applyOp s op) := by
  cases op with
  | register c ts => exact regInvW_register s c ts h
  | unregister c => exact regInvW_unregister s c h
  | registerSchemas ts => exact regInvW_schemas s ts h

theorem regInv_applyOp (s : RegState) (op : RegOp) (h : RegInv s) (hop : op.isClientOp) :
    RegInv (applyOp s op) := by
  cases op with
  | register c ts => exact regInv_register s c ts h hop
  | unregister c => exact regInv_unregister s c h
  | registerSchemas ts => cases hop

theorem regInvW_applyOps (s : RegState) (ops : List RegOp) (h : RegInvW s) :
    RegInvW (applyOps s ops) := by
  induction ops generalizing s with
  | nil => exact h
  | cons op rest ih => exact ih _ (regInvW_applyOp s op h)

theorem regInv_applyOps (s : RegState) (ops : List RegOp) (h : RegInv s)
    (hops : ∀ op ∈ ops, op.isClientOp) :
    RegInv (applyOps s ops) := by
  induction ops generalizing s with
  | nil => exact h
  | cons op rest ih =>
      exact ih _ (regInv_applyOp s op h (hops op (List.mem_cons_self op rest)))
        (fun o ho => hops o (List.mem_cons_of_mem op ho))

theorem regInv_union (s : RegState) (h : RegInv s) : sessionUnionMatchesOwnership s := by
  intro n
  constructor
  · rintro ⟨c, names, hfind, hmem⟩
    refine ⟨c, h.owned c names n hfind hmem, ?_⟩
    intro he
    subst he
    rw [h.sfree] at hfind
    cases hfind
  · rintro ⟨o, hfind, hne⟩
    rcases h.tracked n o hfind hne with ⟨names, hf, hm⟩
    exact ⟨o, names, hf, hm⟩

theorem unregister_useNamespacing (s : RegState) (c : String) :
    (unregisterClientTools s c).useNamespacing = s.useNamespacing := by
  cases hs : JsMap.find? s.clientTools c <;> simp [unregisterClientTools, hs]

/-- Keys outside the unregistered client's session set keep their descriptor
and owner. -/
theorem unregister_preserves_unowned (s : RegState) (c k : String) (o : String)
    (hinv : RegInv s) (hk : JsMap.find? s.toolToClient k = some o) (ho : o ≠ c) :
    JsMap.find? (unregisterClientTools s c).tools k = JsMap.find? s.tools k ∧
    JsMap.find? (unregisterClientTools s c).toolToClient k = JsMap.find? s.toolToClient k := by
  cases hs : JsMap.find? s.clientTools c with
  | none => simp [unregisterClientTools, hs]
  | some names =>
      have hnotin : k ∉ names := by
        intro hmem
        have := hinv.owned c names k hs hmem
        exact ho (Option.some_inj.1 (hk.symm.trans this))
      constructor
      · have e1 : (unregisterClientTools s c).tools = JsMap.eraseAll s.tools names := by
          simp [unregisterClientTools, hs]
        rw [e1, JsMap.find?_eraseAll, if_neg hnotin]
      · have e2 : (unregisterClientTools s c).toolToClient
            = JsMap.eraseAll s.toolToClient names := by
          simp [unregisterClientTools, hs]
        rw [e2, JsMap.find?_eraseAll, if_neg hnotin]

/-- Keys in the unregistered client's session set disappear from both maps. -/
theorem unregister_removes_owned (s : RegState) (c k : String) (names : List String)
    (hs : JsMap.find? s.clientTools c = some names) (hmem : k ∈ names) :
    JsMap.find? (unregisterClientTools s c).tools k = none ∧
    JsMap.find? (unregisterClientTools s c).toolToClient k = none := by
  have e1 : (unregisterClientTools s c).tools = JsMap.eraseAll s.tools names := by
    simp [unregisterClientTools, hs]
  have e2 : (unregisterClientTools s c).toolToClient = JsMap.eraseAll s.toolToClient names := by
    simp [unregisterClientTools, hs]
  rw [e1, e2, JsMap.find?_eraseAll, JsMap.find?_eraseAll, if_pos hmem, if_pos hmem]
  exact ⟨rfl, rfl⟩

theorem handleClientToolRegistration_snd (s : RegState) (clientId : String)
    (ts : List RegToolInput) :
    (handleClientToolRegistration s clientId ts).2 =
      { status := "success"
        registeredTools :=
          (ts.foldl (regToolStep clientId) ⟨unregisterClientTools s clientId, [], [], []⟩).registeredTools
        conflicts :=
          (ts.foldl (regToolStep clientId) ⟨unregisterClientTools s clientId, [], [], []⟩).conflicts } :=
  rfl

end ClientExecServer

/-! ## Claim theorems -/

open ClientExecServer in
/-- C10 (counterexample): after client "A" registers tool "x" and a subsequent
static `registerToolSchemas` re-registers the same raw key "x", the key "x" is
still in "A"'s session set but its owner is the static "server" owner, so the
union of the per-client session sets is not the set of non-server-owned keys.
-/
theorem c10_counterexample :
    ¬ sessionUnionMatchesOwnership
        (applyOps (initialRegState false)
          [.register "A" [⟨"x", "d", .null⟩], .registerSchemas [⟨"x", "d2", .null⟩]]) := by
  intro h
  have hsession :
      JsMap.find? (applyOps (initialRegState false)
        [.register "A" [⟨"x", "d", .null⟩], .registerSchemas [⟨"x", "d2", .null⟩]]).clientTools "A"
      = some ["x"] := by rfl
  have howner :
      JsMap.find? (applyOps (initialRegState false)
        [.register "A" [⟨"x", "d", .null⟩], .registerSchemas [⟨"x", "d2", .null⟩]]).toolToClient "x"
      = some "server" := by rfl
  rcases (h "x").1 ⟨"A", ["x"], hsession, List.mem_singleton_self "x"⟩ with ⟨o, ho, hne⟩
  exact hne (Option.some_inj.1 (ho.symm.trans howner))

open ClientExecServer in
/-- C10 (amended): after any sequence of `handleClientToolRegistration`,
`unregisterClientTools` and `registerToolSchemas` operations from the empty
registry, the key set of the tool table equals the key set of the
tool-to-owner map and the per-client session sets are pairwise disjoint; if
moreover the sequence consists only of client operations (registrations with a
client id other than the reserved "server", and unregistrations), the union of
all per-client session sets is exactly the set of registered keys whose owner
is not the static "server" owner. -/
theorem c10_registry_invariants (ns : Bool) (ops : List RegOp) :
    (keysAligned (applyOps (initialRegState ns) ops) ∧
      sessionsDisjoint (applyOps (initialRegState ns) ops)) ∧
    ((∀ op ∈ ops, op.isClientOp) →
      sessionUnionMatchesOwnership (applyOps (initialRegState ns) ops)) := by
  have hw := regInvW_applyOps (initialRegState ns) ops
    (regInv_to_W _ (regInv_initial ns))
  refine ⟨⟨hw.keys, hw.disj⟩, ?_⟩
  intro hops
  exact regInv_union _ (regInv_applyOps _ ops (regInv_initial ns) hops)

open ClientExecServer in
/-- Witness for `c10_registry_invariants` at a concrete client-only op list. -/
theorem c10_witness :
    sessionUnionMatchesOwnership
      (applyOps (initialRegState false)
        [.register "A" [⟨"x", "d", .null⟩], .unregister "B"]) :=
  (c10_registry_invariants false [.register "A" [⟨"x", "d", .null⟩], .unregister "B"]).2
    (by
      intro op hop
      rcases List.mem_cons.1 hop with h1 | h2
      · subst h1; exact (by decide : ("A" : String) ≠ "server")
      · rcases List.mem_singleton.1 h2 with rfl
        exact trivial)

open ClientExecServer in
/-- C3: with namespacing disabled, a registration request containing a tool
whose raw name is already registered to a different owner skips that tool: the
raw name goes to `conflicts` and not to `registeredTools`, the existing
owner's descriptor and ownership entry are unchanged, and the call still
returns status "success". -/
theorem c3_conflict_skipped_on_name_collision
    (s : RegState) (clientId owner : String) (tools : List RegToolInput) (t : RegToolInput)
    (hns : s.useNamespacing = false)
    (hinv : RegInv s)
    (ht : t ∈ tools)
    (hown : JsMap.find? s.toolToClient t.name = some owner)
    (hdiff : owner ≠ clientId) :
    t.name ∈ (handleClientToolRegistration s clientId tools).2.conflicts ∧
    t.name ∉ (handleClientToolRegistration s clientId tools).2.registeredTools ∧
    JsMap.find? (handleClientToolRegistration s clientId tools).1.tools t.name
      = JsMap.find? s.tools t.name ∧
    JsMap.find? (handleClientToolRegistration s clientId tools).1.toolToClient t.name
      = some owner ∧
    (handleClientToolRegistration s clientId tools).2.status = "success" := by
  have hpres := unregister_preserves_unowned s clientId t.name owner hinv hown hdiff
  have hns1 : (unregisterClientTools s clientId).useNamespacing = false := by
    rw [unregister_useNamespacing]; exact hns
  have httc1 : JsMap.find? (unregisterClientTools s clientId).toolToClient t.name = some owner := by
    rw [hpres.2]; exact hown
  have hk1 : keysAligned (unregisterClientTools s clientId) :=
    (regInv_unregister s clientId hinv).keys
  have hsome1 : (JsMap.find? (unregisterClientTools s clientId).tools t.name).isSome :=
    (hk1 t.name).2 (by rw [httc1]; rfl)
  obtain ⟨v, hv⟩ := Option.isSome_iff_exists.1 hsome1
  refine ⟨?_, ?_, ?_, ?_, rfl⟩
  · rw [handleClientToolRegistration_snd]
    refine regFold_conflict_of_existing clientId tools ⟨unregisterClientTools s clientId, [], [], []⟩ t ht ?_
    show (JsMap.find? (unregisterClientTools s clientId).tools
      (getToolName (unregisterClientTools s clientId).useNamespacing clientId t.name)).isSome
    rw [hns1]
    simpa [getToolName] using hsome1
  · rw [handleClientToolRegistration_snd]
    intro hmem
    exact regFold_registered_not clientId tools ⟨unregisterClientTools s clientId, [], [], []⟩
      t.name hns1 hsome1 (by intro h; simp at h) hmem
  · rw [handleClientToolRegistration_fst]
    show JsMap.find? (tools.foldl (regToolStep clientId)
        ⟨unregisterClientTools s clientId, [], [], []⟩).st.tools t.name
      = JsMap.find? s.tools t.name
    rw [regFold_tools_preserve clientId tools _ t.name v hv, ← hpres.1]
    exact hv.symm
  · rw [handleClientToolRegistration_fst]
    show JsMap.find? (tools.foldl (regToolStep clientId)
        ⟨unregisterClientTools s clientId, [], [], []⟩).st.toolToClient t.name
      = some owner
    exact regFold_ttc_preserve clientId tools _ t.name owner hk1 httc1

open ClientExecServer in
/-- Witness for `c3_conflict_skipped_on_name_collision`: after peer "A"
registers tool "x", a registration of "x" by peer "B" reports the conflict and
leaves "A"'s entry intact. -/
theorem c3_witness :
    "x" ∈ (handleClientToolRegistration
      (applyOps (initialRegState false) [.register "A" [⟨"x", "d", .null⟩]])
      "B" [⟨"x", "dB", .null⟩]).2.conflicts ∧
    JsMap.find? (handleClientToolRegistration
      (applyOps (initialRegState false) [.register "A" [⟨"x", "d", .null⟩]])
      "B" [⟨"x", "dB", .null⟩]).1.toolToClient "x" = some "A" := by
  have h := c3_conflict_skipped_on_name_collision
    (applyOps (initialRegState false) [.register "A" [⟨"x", "d", .null⟩]])
    "B" "A" [⟨"x", "dB", .null⟩] ⟨"x", "dB", .null⟩
    (by rfl)
    (regInv_applyOps _ _ (regInv_initial false)
      (by
        intro op hop
        rcases List.mem_singleton.1 hop with rfl
        exact (by decide : ("A" : String) ≠ "server")))
    (List.mem_singleton_self _)
    (by rfl)
    (by decide)
  exact ⟨h.1, h.2.2.2.1⟩

open ClientExecServer in
/-- C4: a registration request from a peer first drops every key in that
peer's session set, so a previously registered tool absent from the new set is
gone from the registry, the ownership map and the peer's new session set
afterwards; keys owned by any other owner keep their descriptor and owner. -/
theorem c4_reregistration_replaces_tools
    (s : RegState) (clientId : String) (ts : List RegToolInput)
    (hinv : RegInv s) :
    (∀ k names, JsMap.find? s.clientTools clientId = some names → k ∈ names →
      k ∉ newKeys s.useNamespacing clientId ts →
      JsMap.find? (handleClientToolRegistration s clientId ts).1.tools k = none ∧
      JsMap.find? (handleClientToolRegistration s clientId ts).1.toolToClient k = none ∧
      (∀ names', JsMap.find?
          (handleClientToolRegistration s clientId ts).1.clientTools clientId = some names' →
        k ∉ names')) ∧
    (∀ k o, JsMap.find? s.toolToClient k = some o → o ≠ clientId →
      JsMap.find? (handleClientToolRegistration s clientId ts).1.tools k
        = JsMap.find? s.tools k ∧
      JsMap.find? (handleClientToolRegistration s clientId ts).1.toolToClient k = some o) := by
  have hk1 : keysAligned (unregisterClientTools s clientId) :=
    (regInv_unregister s clientId hinv).keys
  constructor
  · intro k names hnames hmem hnew
    have hrem := unregister_removes_owned s clientId k names hnames hmem
    have hnew1 : k ∉ newKeys
        (RegAcc.mk (unregisterClientTools s clientId) [] [] []).st.useNamespacing clientId ts := by
      show k ∉ newKeys (unregisterClientTools s clientId).useNamespacing clientId ts
      rw [unregister_useNamespacing]
      exact hnew
    have huntouched := regFold_untouched clientId ts
      ⟨unregisterClientTools s clientId, [], [], []⟩ k hnew1
    rw [handleClientToolRegistration_fst]
    refine ⟨?_, ?_, ?_⟩
    · show JsMap.find? (ts.foldl (regToolStep clientId)
          ⟨unregisterClientTools s clientId, [], [], []⟩).st.tools k = none
      rw [huntouched.1]
      exact hrem.1
    · show JsMap.find? (ts.foldl (regToolStep clientId)
          ⟨unregisterClientTools s clientId, [], [], []⟩).st.toolToClient k = none
      rw [huntouched.2.1]
      exact hrem.2
    · intro names' hfind
      show k ∉ names'
      have : (ts.foldl (regToolStep clientId)
          ⟨unregisterClientTools s clientId, [], [], []⟩).clientToolNames = names' :=
        Option.some_inj.1 (by rw [← hfind]; exact (JsMap.find?_set_self _ _ _).symm)
      rw [← this]
      intro hk
      have : k ∈ ([] : List String) := huntouched.2.2.1 hk
      simp at this
  · intro k o hown hdiff
    have hpres := unregister_preserves_unowned s clientId k o hinv hown hdiff
    have httc1 : JsMap.find? (unregisterClientTools s clientId).toolToClient k = some o := by
      rw [hpres.2]; exact hown
    have hsome1 : (JsMap.find? (unregisterClientTools s clientId).tools k).isSome :=
      (hk1 k).2 (by rw [httc1]; rfl)
    obtain ⟨v, hv⟩ := Option.isSome_iff_exists.1 hsome1
    rw [handleClientToolRegistration_fst]
    constructor
    · show JsMap.find? (ts.foldl (regToolStep clientId)
          ⟨unregisterClientTools s clientId, [], [], []⟩).st.tools k = JsMap.find? s.tools k
      rw [regFold_tools_preserve clientId ts _ k v hv, ← hpres.1]
      exact hv.symm
    · show JsMap.find? (ts.foldl (regToolStep clientId)
          ⟨unregisterClientTools s clientId, [], [], []⟩).st.toolToClient k = some o
      exact regFold_ttc_preserve clientId ts _ k o hk1 httc1

open ClientExecServer in
/-- Witness for `c4_reregistration_replaces_tools`: after "A" registers "x"
and then re-registers with tool "y" only, the key "x" is gone. -/
theorem c4_witness :
    JsMap.find? (handleClientToolRegistration
      (applyOps (initialRegState false) [.register "A" [⟨"x", "d", .null⟩]])
      "A" [⟨"y", "d2", .null⟩]).1.tools "x" = none := by
  have h := (c4_reregistration_replaces_tools
    (applyOps (initialRegState false) [.register "A" [⟨"x", "d", .null⟩]])
    "A" [⟨"y", "d2", .null⟩]
    (regInv_applyOps _ _ (regInv_initial false)
      (by
        intro op hop
        rcases List.mem_singleton.1 hop with rfl
        exact (by decide : ("A" : String) ≠ "server")))).1
  exact (h "x" ["x"] (by rfl) (List.mem_singleton_self _) (by decide)).1

/-- Once the pending entry is gone, every further `proxy/tool_response` for
this request id is answered with "Request not found" and the state, and with
it the already-settled caller, never changes. -/
theorem runResponses_absent (s : PendingCallState) (hp : s.pendingPresent = false)
    (ps : List RespParams) :
    (ClientExecServer.runResponses s ps).1 = s ∧
    ∀ out ∈ (ClientExecServer.runResponses s ps).2, out = .error .requestNotFound := by
  induction ps with
  | nil => exact ⟨rfl, by intro out hout; cases hout⟩
  | cons p rest ih =>
      have hstep : ClientExecServer.handleClientResponse s p
          = (s, .error .requestNotFound) := by
        simp [ClientExecServer.handleClientResponse, hp]
      have hcons : ClientExecServer.runResponses s (p :: rest)
          = ((ClientExecServer.runResponses (ClientExecServer.handleClientResponse s p).1 rest).1,
             (ClientExecServer.handleClientResponse s p).2 ::
               (ClientExecServer.runResponses (ClientExecServer.handleClientResponse s p).1 rest).2) :=
        rfl
      rw [hcons, hstep]
      refine ⟨ih.1, ?_⟩
      intro out hout
      rcases List.mem_cons.1 hout with hh | hh
      · exact hh
      · exact ih.2 out hh

/-- C1: when the expiry timer of a dispatched call fires before any response
is processed, the pending entry is removed and the caller is rejected with the
execution-timeout error; every `proxy/tool_response` for that request id
processed afterwards is answered with "Request not found" and leaves the
already-failed caller untouched, so the caller is never resolved twice. -/
theorem c1_timeout_then_responses_not_found (toolName : String) (ps : List RespParams) :
    (timerFire toolName dispatchedCall).pendingPresent = false ∧
    (timerFire toolName dispatchedCall).caller
      = .rejectedWith (.executionTimeout toolName) ∧
    (ClientExecServer.runResponses (timerFire toolName dispatchedCall) ps).1.caller
      = .rejectedWith (.executionTimeout toolName) ∧
    (∀ out ∈ (ClientExecServer.runResponses (timerFire toolName dispatchedCall) ps).2,
      out = .error .requestNotFound) := by
  have hfire : timerFire toolName dispatchedCall
      = { pendingPresent := false, timerArmed := false
          caller := .rejectedWith (.executionTimeout toolName) } := rfl
  have habs := runResponses_absent (timerFire toolName dispatchedCall) (by rw [hfire]) ps
  refine ⟨by rw [hfire], by rw [hfire], ?_, habs.2⟩
  rw [habs.1, hfire]

/-- C2 (counterexample): on a failure response (`success: false`, error
"boom") for a pending request, `ClientExecServer.handleClientResponse`
resolves the caller with the raw absent `result` field, not with the
marked-failed payload carrying the error string that
`DynServer.handleClientResponse` constructs. -/
theorem c2_counterexample :
    (ClientExecServer.handleClientResponse dispatchedCall
        ⟨"r1", false, none, some "boom"⟩).1.caller
      = .resolvedWith (.ofJson none) ∧
    ResolvedValue.ofJson none
      ≠ .ofResult { text := "Tool execution failed: boom", isError := true } ∧
    DynServer.resolvedValue ⟨"r1", false, none, some "boom"⟩
      = .ofResult { text := "Tool execution failed: boom", isError := true } :=
  ⟨rfl, by decide, rfl⟩

/-- C2 (amended): for every `proxy/tool_response` whose request id has a
pending entry with a waiting caller, both `handleClientResponse` variants
cancel the expiry timer, remove the entry, return the "received"
acknowledgment, and settle the caller by resolving, never rejecting;
`DynServer.handleClientResponse` resolves with the normalized payload on
success and the marked-failed (`isError`) payload on failure, carrying the
peer-supplied error string with "Unknown error" substituted when that string
is absent or empty, while `ClientExecServer.handleClientResponse` resolves
with the raw `result` field regardless of `success`. -/
theorem c2_handle_client_response (s : PendingCallState) (p : RespParams)
    (hp : s.pendingPresent = true) (hw : s.caller = .waiting) :
    ClientExecServer.handleClientResponse s p
      = ({ pendingPresent := false, timerArmed := false
           caller := .resolvedWith (.ofJson p.result) }, .ok ⟨"received"⟩) ∧
    DynServer.handleClientResponse s p
      = ({ pendingPresent := false, timerArmed := false
           caller := .resolvedWith (DynServer.resolvedValue p) }, .ok ⟨"received"⟩) ∧
    (p.success = false →
      DynServer.resolvedValue p
        = .ofResult { text := "Tool execution failed: " ++ jsOr p.error "Unknown error"
                      isError := true }) ∧
    (p.success = false → (p.error = none ∨ p.error = some "") →
      DynServer.resolvedValue p
        = .ofResult { text := "Tool execution failed: Unknown error", isError := true }) ∧
    (p.success = true →
      DynServer.resolvedValue p
        = .ofResult { text := match p.result with
                        | some (.str str) => str
                        | some v => stringifyJValue v
                        | none => "undefined"
                      isError := false }) := by
  refine ⟨?_, ?_, ?_, ?_, ?_⟩
  · simp [ClientExecServer.handleClientResponse, hp, hw, promiseResolve]
  · simp [DynServer.handleClientResponse, hp, hw, promiseResolve]
  · intro hsucc
    simp [DynServer.resolvedValue, hsucc]
  · intro hsucc herr
    rcases herr with he | he <;> simp [DynServer.resolvedValue, hsucc, jsOr, he]
  · intro hsucc
    simp [DynServer.resolvedValue, hsucc]

/-- Witness for `c2_handle_client_response` at a freshly dispatched call and a
successful response. -/
theorem c2_witness :
    ClientExecServer.handleClientResponse dispatchedCall ⟨"r1", true, some (.str "ok"), none⟩
      = ({ pendingPresent := false, timerArmed := false
           caller := .resolvedWith (.ofJson (some (.str "ok"))) }, .ok ⟨"received"⟩) :=
  (c2_handle_client_response dispatchedCall ⟨"r1", true, some (.str "ok"), none⟩ rfl rfl).1

/-- C5: an execution notification whose `clientId` differs from the agent's
own id is ignored with no response attempt; otherwise exactly one
`proxy/tool_response` is attempted, carrying the notification's id — a success
response with the implementation's result when it completes, a failure
response carrying the thrown message when it throws, and a failure response
carrying the tool-not-found message when the tool name is unknown; the attempt
list does not depend on whether delivery succeeds (no retry), and no
implementation failure escapes the handler. -/
theorem c5_execution_notification (st : ClientExecClient.AgentState)
    (params : ExecNotifyParams) (d1 d2 : Bool) :
    (params.clientId ≠ st.clientId →
      ClientExecClient.handleExecutionNotification st params = .ignored ∧
      ClientExecClient.runExecutionNotification st params d1 = []) ∧
    (params.clientId = st.clientId →
      ∃ r : RespParams,
        ClientExecClient.handleExecutionNotification st params = .sendResponse r ∧
        ClientExecClient.runExecutionNotification st params d1 = [r] ∧
        r.id = params.id ∧
        (JsMap.find? st.tools params.toolName = none →
          r = ⟨params.id, false, none,
                some ("Tool " ++ params.toolName ++ " not found in client " ++ st.clientId)⟩) ∧
        (∀ impl, JsMap.find? st.tools params.toolName = some impl →
          (∀ v, impl params.args = .ok v → r = ⟨params.id, true, v, none⟩) ∧
          (∀ m, impl params.args = .threw m → r = ⟨params.id, false, none, some m⟩))) ∧
    ClientExecClient.runExecutionNotification st params d1
      = ClientExecClient.runExecutionNotification st params d2 := by
  refine ⟨?_, ?_, rfl⟩
  · intro h
    constructor
    · simp [ClientExecClient.handleExecutionNotification, h]
    · simp [ClientExecClient.runExecutionNotification,
        ClientExecClient.handleExecutionNotification, h]
  · intro h
    cases hfind : JsMap.find? st.tools params.toolName with
    | none =>
        refine ⟨⟨params.id, false, none,
          some ("Tool " ++ params.toolName ++ " not found in client " ++ st.clientId)⟩,
          ?_, ?_, rfl, ?_, ?_⟩
        · simp [ClientExecClient.handleExecutionNotification, h, hfind]
        · simp [ClientExecClient.runExecutionNotification,
            ClientExecClient.handleExecutionNotification, h, hfind]
        · intro hf
          rfl
        · intro impl himpl
          exact Option.noConfusion himpl
    | some impl =>
        cases hout : impl params.args with
        | ok v =>
            refine ⟨⟨params.id, true, v, none⟩, ?_, ?_, rfl, ?_, ?_⟩
            · simp [ClientExecClient.handleExecutionNotification, h, hfind, hout]
            · simp [ClientExecClient.runExecutionNotification,
                ClientExecClient.handleExecutionNotification, h, hfind, hout]
            · intro hf
              exact Option.noConfusion hf
            · intro impl' himpl'
              have he : impl = impl' := Option.some_inj.1 himpl'
              subst he
              constructor
              · intro v' hv'
                have hvv := hout.symm.trans hv'
                injection hvv with hvv2
                rw [hvv2]
              · intro m hm
                exact ExecOutcome.noConfusion (hout.symm.trans hm)
        | threw msg =>
            refine ⟨⟨params.id, false, none, some msg⟩, ?_, ?_, rfl, ?_, ?_⟩
            · simp [ClientExecClient.handleExecutionNotification, h, hfind, hout]
            · simp [ClientExecClient.runExecutionNotification,
                ClientExecClient.handleExecutionNotification, h, hfind, hout]
            · intro hf
              exact Option.noConfusion hf
            · intro impl' himpl'
              have he : impl = impl' := Option.some_inj.1 himpl'
              subst he
              constructor
              · intro v' hv'
                exact ExecOutcome.noConfusion (hout.symm.trans hv')
              · intro m hm
                have hmm := hout.symm.trans hm
                injection hmm with hmm2
                rw [hmm2]

/-- Witness for `c5_execution_notification`: a notification addressed to a
different client id produces no response attempt. -/
theorem c5_witness :
    ClientExecClient.runExecutionNotification ⟨"A", []⟩ ⟨"r1", "t", .null, "B"⟩ true = [] :=
  ((c5_execution_notification ⟨"A", []⟩ ⟨"r1", "t", .null, "B"⟩ true true).1 (by decide)).2

/-! ## String lemmas for namespaced keys -/

namespace ClientExecServer

theorem splitOnColon_ne_nil (l : List Char) : splitOnColon l ≠ [] := by
  cases l with
  | nil => simp [splitOnColon]
  | cons c rest =>
      by_cases h : c = ':'
      · simp [splitOnColon, h]
      · simp only [splitOnColon, h, if_false]
        cases hr : splitOnColon rest with
        | nil => simp
        | cons g gs => simp

theorem joinColon_cons (g : List Char) (gs : List (List Char)) (h : gs ≠ []) :
    joinColon (g :: gs) = g ++ ':' :: joinColon gs := by
  cases gs with
  | nil => exact absurd rfl h
  | cons g2 gs2 => rfl

theorem splitOnColon_append (a x : List Char) (ha : ':' ∉ a) :
    splitOnColon (a ++ ':' :: x) = a :: splitOnColon x := by
  induction a with
  | nil => simp [splitOnColon]
  | cons c rest ih =>
      have hc : c ≠ ':' := by
        intro he
        exact ha (he ▸ List.mem_cons_self c rest)
      have hrest : ':' ∉ rest := fun hm => ha (List.mem_cons_of_mem c hm)
      rw [List.cons_append]
      have hmid := ih hrest
      cases hr : splitOnColon (rest ++ ':' :: x) with
      | nil => exact absurd hr (splitOnColon_ne_nil _)
      | cons g gs =>
          rw [hr] at hmid
          have hg : g = rest := (List.cons.inj hmid).1
          have hgs : gs = splitOnColon x := (List.cons.inj hmid).2
          have : splitOnColon (c :: (rest ++ ':' :: x)) = (c :: g) :: gs := by
            simp [splitOnColon, hc, hr]
          rw [this, hg, hgs]

theorem joinColon_splitOnColon (l : List Char) : joinColon (splitOnColon l) = l := by
  induction l with
  | nil => simp [splitOnColon, joinColon]
  | cons c rest ih =>
      cases hr : splitOnColon rest with
      | nil => exact absurd hr (splitOnColon_ne_nil rest)
      | cons g gs =>
          rw [hr] at ih
          by_cases h : c = ':'
          · subst h
            have hs : splitOnColon (':' :: rest) = [] :: g :: gs := by
              simp [splitOnColon, hr]
            rw [hs, joinColon_cons _ _ (by simp), ih]
            rfl
          · have hs : splitOnColon (c :: rest) = (c :: g) :: gs := by
              simp [splitOnColon, h, hr]
            rw [hs]
            cases gs with
            | nil =>
                have hg : g = rest := ih
                show c :: g = c :: rest
                rw [hg]
            | cons g2 gs2 =>
                rw [joinColon_cons _ _ (by simp), ← ih,
                  joinColon_cons _ _ (by simp : g2 :: gs2 ≠ [])]
                simp

theorem data_append3 (a b c : String) : (a ++ b ++ c).data = a.data ++ b.data ++ c.data := by
  rw [String.data_append, String.data_append]

theorem getOriginalToolName_namespaced (A x : String) (hA : ':' ∉ A.data) :
    getOriginalToolName true (A ++ ":" ++ x) = x := by
  have hdata : (A ++ ":" ++ x).data = A.data ++ ':' :: x.data := by
    rw [data_append3]
    have : (":" : String).data = [':'] := rfl
    rw [this]
    simp
  have hmem : ':' ∈ (A ++ ":" ++ x).data := by
    rw [hdata]
    simp
  rw [getOriginalToolName, if_pos ⟨rfl, hmem⟩, hdata, splitOnColon_append A.data x.data hA]
  show String.mk (joinColon (splitOnColon x.data)) = x
  rw [joinColon_splitOnColon]

/-- The position of the first occurrence of a separator determines the split:
two decompositions around a character absent from both prefixes coincide. -/
theorem prefix_eq_of_first_sep (c : Char) (l₁ l₂ r₁ r₂ : List Char)
    (h₁ : c ∉ l₁) (h₂ : c ∉ l₂) (h : l₁ ++ c :: r₁ = l₂ ++ c :: r₂) :
    l₁ = l₂ := by
  induction l₁ generalizing l₂ with
  | nil =>
      cases l₂ with
      | nil => rfl
      | cons d l₂' =>
          rw [List.nil_append] at h
          have hd : c = d := (List.cons.inj h).1
          exact absurd (hd ▸ List.mem_cons_self d l₂') h₂
  | cons a l₁' ih =>
      cases l₂ with
      | nil =>
          rw [List.nil_append] at h
          have hd : a = c := (List.cons.inj h).1
          exact absurd (hd ▸ List.mem_cons_self a l₁') (hd ▸ h₁)
      | cons d l₂' =>
          have had : a = d := (List.cons.inj h).1
          have htail := (List.cons.inj h).2
          have h₁' : c ∉ l₁' := fun hm => h₁ (List.mem_cons_of_mem a hm)
          have h₂' : c ∉ l₂' := fun hm => h₂ (List.mem_cons_of_mem d hm)
          rw [had, ih l₂' h₁' h₂' htail]

/-- Namespaced keys of different peers (whose ids contain no colon) differ. -/
theorem nsKey_injective (A B x y : String) (hA : ':' ∉ A.data) (hB : ':' ∉ B.data)
    (hAB : A ≠ B) : A ++ ":" ++ x ≠ B ++ ":" ++ y := by
  intro h
  have hdataA : (A ++ ":" ++ x).data = A.data ++ ':' :: x.data := by
    rw [data_append3]
    have : (":" : String).data = [':'] := rfl
    rw [this]
    simp
  have hdataB : (B ++ ":" ++ y).data = B.data ++ ':' :: y.data := by
    rw [data_append3]
    have : (":" : String).data = [':'] := rfl
    rw [this]
    simp
  have hd : A.data ++ ':' :: x.data = B.data ++ ':' :: y.data := by
    rw [← hdataA, ← hdataB, h]
  have : A.data = B.data := prefix_eq_of_first_sep ':' A.data B.data x.data y.data hA hB hd
  exact hAB (String.ext this)

/-- Namespaced descriptions of different peers (whose ids contain no closing
bracket) differ. -/
theorem nsDescription_injective (A B dA dB : String) (hA : ']' ∉ A.data)
    (hB : ']' ∉ B.data) (hAB : A ≠ B) :
    "[" ++ A ++ "] " ++ dA ≠ "[" ++ B ++ "] " ++ dB := by
  intro h
  have hdataA : ("[" ++ A ++ "] " ++ dA).data = '[' :: (A.data ++ ']' :: ' ' :: dA.data) := by
    rw [String.data_append, data_append3]
    have h1 : ("[" : String).data = ['['] := rfl
    have h2 : ("] " : String).data = [']', ' '] := rfl
    rw [h1, h2]
    simp
  have hdataB : ("[" ++ B ++ "] " ++ dB).data = '[' :: (B.data ++ ']' :: ' ' :: dB.data) := by
    rw [String.data_append, data_append3]
    have h1 : ("[" : String).data = ['['] := rfl
    have h2 : ("] " : String).data = [']', ' '] := rfl
    rw [h1, h2]
    simp
  have hd : '[' :: (A.data ++ ']' :: ' ' :: dA.data)
      = '[' :: (B.data ++ ']' :: ' ' :: dB.data) := by
    rw [← hdataA, ← hdataB, h]
  have htail := (List.cons.inj hd).2
  have : A.data = B.data :=
    prefix_eq_of_first_sep ']' A.data B.data (' ' :: dA.data) (' ' :: dB.data) hA hB htail
  exact hAB (String.ext this)

theorem unregister_tools_none (s : RegState) (c k : String)
    (h : JsMap.find? s.tools k = none) :
    JsMap.find? (unregisterClientTools s c).tools k = none := by
  cases hs : JsMap.find? s.clientTools c with
  | none => simpa [unregisterClientTools, hs] using h
  | some names =>
      have e1 : (unregisterClientTools s c).tools = JsMap.eraseAll s.tools names := by
        simp [unregisterClientTools, hs]
      rw [e1, JsMap.find?_eraseAll]
      by_cases hk : k ∈ names
      · rw [if_pos hk]
      · rw [if_neg hk]; exact h

theorem register_useNamespacing (s : RegState) (c : String) (ts : List RegToolInput) :
    (handleClientToolRegistration s c ts).1.useNamespacing = s.useNamespacing := by
  rw [handleClientToolRegistration_fst]
  show (ts.foldl (regToolStep c) ⟨unregisterClientTools s c, [], [], []⟩).st.useNamespacing
    = s.useNamespacing
  rw [regFold_useNamespacing]
  exact unregister_useNamespacing s c

/-- One namespaced registration of a single fresh tool, fully computed. -/
theorem register_single_fresh (s : RegState) (c : String) (t : RegToolInput)
    (hns : s.useNamespacing = true)
    (hfresh : JsMap.find? (unregisterClientTools s c).tools (c ++ ":" ++ t.name) = none) :
    (handleClientToolRegistration s c [t]).2
      = { status := "success", registeredTools := [t.name], conflicts := [] } ∧
    (handleClientToolRegistration s c [t]).1.tools
      = JsMap.set (unregisterClientTools s c).tools (c ++ ":" ++ t.name)
          { name := t.name, description := "[" ++ c ++ "] " ++ t.description
            inputSchema := t.inputSchema } ∧
    (handleClientToolRegistration s c [t]).1.toolToClient
      = JsMap.set (unregisterClientTools s c).toolToClient (c ++ ":" ++ t.name) c ∧
    (handleClientToolRegistration s c [t]).1.clientTools
      = JsMap.set (unregisterClientTools s c).clientTools c [c ++ ":" ++ t.name] := by
  have hnsu : (unregisterClientTools s c).useNamespacing = true := by
    rw [unregister_useNamespacing]; exact hns
  have hkey : getToolName (unregisterClientTools s c).useNamespacing c t.name
      = c ++ ":" ++ t.name := by
    rw [hnsu]
    simp [getToolName]
  have hkey2 : getToolName true c t.name = c ++ ":" ++ t.name := by
    simp [getToolName]
  have hb2 : (JsMap.find? (unregisterClientTools s c).tools
      (c ++ ":" ++ t.name)).isSome = false := by
    rw [hfresh]
    rfl
  have hfold : List.foldl (regToolStep c) ⟨unregisterClientTools s c, [], [], []⟩ [t]
      = regToolStep c ⟨unregisterClientTools s c, [], [], []⟩ t := rfl
  have hst1 : (regToolStep c ⟨unregisterClientTools s c, [], [], []⟩ t).st.tools
      = JsMap.set (unregisterClientTools s c).tools (c ++ ":" ++ t.name)
          { name := t.name, description := "[" ++ c ++ "] " ++ t.description
            inputSchema := t.inputSchema } := by
    simp [regToolStep, hkey, hkey2, hnsu, hb2]
  have hst2 : (regToolStep c ⟨unregisterClientTools s c, [], [], []⟩ t).st.toolToClient
      = JsMap.set (unregisterClientTools s c).toolToClient (c ++ ":" ++ t.name) c := by
    simp [regToolStep, hkey, hkey2, hnsu, hb2]
  have hst3 : (regToolStep c ⟨unregisterClientTools s c, [], [], []⟩ t).st.clientTools
      = (unregisterClientTools s c).clientTools :=
    regToolStep_clientTools c _ t
  have hreg : (regToolStep c ⟨unregisterClientTools s c, [], [], []⟩ t).registeredTools
      = [t.name] := by
    simp [regToolStep, hkey, hkey2, hnsu, hb2]
  have hconf : (regToolStep c ⟨unregisterClientTools s c, [], [], []⟩ t).conflicts = [] := by
    simp [regToolStep, hkey, hkey2, hnsu, hb2]
  have hnames : (regToolStep c ⟨unregisterClientTools s c, [], [], []⟩ t).clientToolNames
      = [c ++ ":" ++ t.name] := by
    simp [regToolStep, hkey, hkey2, hnsu, hb2, addToSet]
  refine ⟨?_, ?_, ?_, ?_⟩
  · rw [handleClientToolRegistration_snd, hfold, hreg, hconf]
  · rw [handleClientToolRegistration_fst]
    show (List.foldl (regToolStep c) ⟨unregisterClientTools s c, [], [], []⟩ [t]).st.tools = _
    rw [hfold, hst1]
  · rw [handleClientToolRegistration_fst]
    show (List.foldl (regToolStep c)
      ⟨unregisterClientTools s c, [], [], []⟩ [t]).st.toolToClient = _
    rw [hfold, hst2]
  · rw [handleClientToolRegistration_fst]
    show JsMap.set (List.foldl (regToolStep c)
        ⟨unregisterClientTools s c, [], [], []⟩ [t]).st.clientTools c
      (List.foldl (regToolStep c) ⟨unregisterClientTools s c, [], [], []⟩ [t]).clientToolNames = _
    rw [hfold, hst3, hnames]

end ClientExecServer

open WithPuppet in
/-- C6 (counterexample): the earlier `bindPuppet` generation (the
`PUPPET_METHODS` file, whose interceptor has no internal-method guard,
modelled by `applyPuppetBinding false`), bound with a forwarded set containing
the internal method "proxy/tool_response", delivers a message with that
method to the puppet instead of the controller's original handler. -/
theorem c6_counterexample :
    controllerDeliver
      (applyPuppetBinding false ["proxy/tool_response"]
        { ctrlOnmessage := .original, puppetSendIntercepted := false
          originalTransportHandler := .absent, originalPuppetSendCaptured := false
          boundPuppet := false })
      (.request "proxy/tool_response" .null) = .puppet ∧
    "proxy/tool_response" ∈ internalMethods :=
  ⟨rfl, by decide⟩

open WithPuppet in
/-- C6 (amended): under the with_puppet.ts interceptor (internal-method guard
present), a parseable message whose method is one of the internal control
methods always falls through to the captured original handler, whatever the
configured forwarded set; under the earlier guard-less generation this holds
only when the internal method is not in the configured forwarded set (as with
the default set). -/
theorem c6_internal_never_forwarded (methods : List String) (captured : CtrlHandler)
    (m : WireMsg) (meth : String) (hm : msgMethod? m = some meth)
    (hint : meth ∈ internalMethods) :
    dispatchMsg (.interceptor true methods captured) m = dispatchMsg captured m ∧
    dispatchMsg (.interceptor true methods .original) m = .controllerOriginal ∧
    (meth ∉ methods → dispatchMsg (.interceptor false methods captured) m
      = dispatchMsg captured m) := by
  cases m with
  | invalid raw => cases hm
  | response payload => cases hm
  | request mm payload =>
      have hmm : mm = meth := Option.some_inj.1 (by simpa [msgMethod?] using hm)
      subst hmm
      have hi : isInternalMethod (some mm) = true := by
        simp [isInternalMethod, hint]
      refine ⟨?_, ?_, ?_⟩
      · simp [dispatchMsg, msgMethod?, hi]
      · simp [dispatchMsg, msgMethod?, hi]
      · intro hnot
        have hsf : shouldForward (some mm) methods = false := by
          simp [shouldForward, hnot]
        simp [dispatchMsg, msgMethod?, hi, hsf]

open WithPuppet in
/-- Witness for `c6_internal_never_forwarded`: even with
"proxy/tool_response" in the forwarded set, the guarded interceptor hands it
to the controller's original handler. -/
theorem c6_witness :
    dispatchMsg (.interceptor true ["proxy/tool_response"] .original)
      (.request "proxy/tool_response" .null) = .controllerOriginal :=
  (c6_internal_never_forwarded ["proxy/tool_response"] .original
    (.request "proxy/tool_response" .null) "proxy/tool_response" rfl (by decide)).2.1

open WithPuppet in
/-- C7: with the with_puppet.ts binding applied over a controller that had an
inbound handler, using the default forwarded set: `tools/call` and
`tools/list` messages go to the puppet's handler; a message with any method
outside the forwarded set, a method-less response, or an unparseable message
goes to the controller's original handler; after `unbindPuppet` every message
goes to the controller's original handler; and `unbindPuppet` on a state with
nothing bound is a no-op. -/
theorem c7_forwarding_bridge (s0 : BridgeState) (h0 : s0.ctrlOnmessage = .original) :
    (∀ payload, controllerDeliver (applyPuppetBinding true DEFAULT_FORWARDED s0)
      (.request "tools/call" payload) = .puppet) ∧
    (∀ payload, controllerDeliver (applyPuppetBinding true DEFAULT_FORWARDED s0)
      (.request "tools/list" payload) = .puppet) ∧
    (∀ method payload, method ∉ DEFAULT_FORWARDED →
      controllerDeliver (applyPuppetBinding true DEFAULT_FORWARDED s0)
        (.request method payload) = .controllerOriginal) ∧
    (∀ payload, controllerDeliver (applyPuppetBinding true DEFAULT_FORWARDED s0)
      (.response payload) = .controllerOriginal) ∧
    (∀ raw, controllerDeliver (applyPuppetBinding true DEFAULT_FORWARDED s0)
      (.invalid raw) = .controllerOriginal) ∧
    (∀ m, controllerDeliver (unbindPuppet (applyPuppetBinding true DEFAULT_FORWARDED s0)) m
      = .controllerOriginal) ∧
    (∀ s : BridgeState, s.boundPuppet = false → unbindPuppet s = s) := by
  have hbind : applyPuppetBinding true DEFAULT_FORWARDED s0
      = { boundPuppet := true, originalPuppetSendCaptured := true
          originalTransportHandler := .original
          ctrlOnmessage := .interceptor true DEFAULT_FORWARDED .original
          puppetSendIntercepted := true } := by
    rw [applyPuppetBinding, h0]
  refine ⟨?_, ?_, ?_, ?_, ?_, ?_, ?_⟩
  · intro payload
    rw [hbind]
    rfl
  · intro payload
    rw [hbind]
    rfl
  · intro method payload hnot
    rw [hbind]
    by_cases hi : isInternalMethod (some method) = true
    · simp [controllerDeliver, dispatchMsg, msgMethod?, hi]
    · have hsf : shouldForward (some method) DEFAULT_FORWARDED = false := by
        simp [shouldForward, hnot]
      simp [controllerDeliver, dispatchMsg, msgMethod?, hi, hsf]
  · intro payload
    rw [hbind]
    rfl
  · intro raw
    rw [hbind]
    rfl
  · intro m
    rw [hbind]
    show dispatchMsg CtrlHandler.original m = .controllerOriginal
    rfl
  · intro s hs
    simp [unbindPuppet, hs]

open WithPuppet in
/-- Witness for `c7_forwarding_bridge` at a concrete pre-binding state and a
concrete `tools/call` message. -/
theorem c7_witness :
    controllerDeliver
      (applyPuppetBinding true DEFAULT_FORWARDED
        { ctrlOnmessage := .original, puppetSendIntercepted := false
          originalTransportHandler := .absent, originalPuppetSendCaptured := false
          boundPuppet := false })
      (.request "tools/call" .null) = .puppet :=
  (c7_forwarding_bridge
    { ctrlOnmessage := .original, puppetSendIntercepted := false
      originalTransportHandler := .absent, originalPuppetSendCaptured := false
      boundPuppet := false } rfl).1 .null

open ClientExecServer in
/-- C8: with namespacing enabled, two different peers A and B (nonempty ids
free of colon and closing bracket, neither the reserved "server" id — an
empty peer id is falsy and `notifyClientExecute` would refuse it) can both
register a tool with the same raw name x with neither registration reporting
a conflict; each registration is stored under its own namespaced key
`peerId:x` with its own owner, the externally visible descriptions differ per
peer (carrying the peer id), and the execution notification for each
namespaced key carries the de-namespaced tool name x and the owning peer's
id. -/
theorem c8_namespacing_no_conflict
    (s : RegState) (A B x dA dB rid : String) (schA schB args : JValue)
    (hns : s.useNamespacing = true)
    (hinv : RegInv s)
    (hAB : A ≠ B)
    (hA0 : A ≠ "") (hB0 : B ≠ "")
    (hAs : A ≠ "server") (hBs : B ≠ "server")
    (hAc : ':' ∉ A.data) (hBc : ':' ∉ B.data)
    (hAbr : ']' ∉ A.data) (hBbr : ']' ∉ B.data)
    (hfreshA : JsMap.find? s.tools (A ++ ":" ++ x) = none)
    (hfreshB : JsMap.find? s.tools (B ++ ":" ++ x) = none) :
    (handleClientToolRegistration s A [⟨x, dA, schA⟩]).2.conflicts = [] ∧
    (handleClientToolRegistration s A [⟨x, dA, schA⟩]).2.registeredTools = [x] ∧
    (handleClientToolRegistration
      (handleClientToolRegistration s A [⟨x, dA, schA⟩]).1 B [⟨x, dB, schB⟩]).2.conflicts = [] ∧
    (handleClientToolRegistration
      (handleClientToolRegistration s A [⟨x, dA, schA⟩]).1 B
        [⟨x, dB, schB⟩]).2.registeredTools = [x] ∧
    JsMap.find? (handleClientToolRegistration
      (handleClientToolRegistration s A [⟨x, dA, schA⟩]).1 B [⟨x, dB, schB⟩]).1.tools
        (A ++ ":" ++ x)
      = some { name := x, description := "[" ++ A ++ "] " ++ dA, inputSchema := schA } ∧
    JsMap.find? (handleClientToolRegistration
      (handleClientToolRegistration s A [⟨x, dA, schA⟩]).1 B [⟨x, dB, schB⟩]).1.tools
        (B ++ ":" ++ x)
      = some { name := x, description := "[" ++ B ++ "] " ++ dB, inputSchema := schB } ∧
    JsMap.find? (handleClientToolRegistration
      (handleClientToolRegistration s A [⟨x, dA, schA⟩]).1 B [⟨x, dB, schB⟩]).1.toolToClient
        (A ++ ":" ++ x) = some A ∧
    JsMap.find? (handleClientToolRegistration
      (handleClientToolRegistration s A [⟨x, dA, schA⟩]).1 B [⟨x, dB, schB⟩]).1.toolToClient
        (B ++ ":" ++ x) = some B ∧
    ("[" ++ A ++ "] " ++ dA) ≠ ("[" ++ B ++ "] " ++ dB) ∧
    notifyClientExecute (handleClientToolRegistration
      (handleClientToolRegistration s A [⟨x, dA, schA⟩]).1 B [⟨x, dB, schB⟩]).1
        rid (A ++ ":" ++ x) args = .ok ⟨rid, x, args, A⟩ ∧
    notifyClientExecute (handleClientToolRegistration
      (handleClientToolRegistration s A [⟨x, dA, schA⟩]).1 B [⟨x, dB, schB⟩]).1
        rid (B ++ ":" ++ x) args = .ok ⟨rid, x, args, B⟩ := by
  have hfreshA1 : JsMap.find? (unregisterClientTools s A).tools (A ++ ":" ++ x) = none :=
    unregister_tools_none s A _ hfreshA
  have hA := register_single_fresh s A ⟨x, dA, schA⟩ hns hfreshA1
  have hinv1 : RegInv (handleClientToolRegistration s A [⟨x, dA, schA⟩]).1 :=
    regInv_register s A [⟨x, dA, schA⟩] hinv hAs
  have hns1 : (handleClientToolRegistration s A [⟨x, dA, schA⟩]).1.useNamespacing = true := by
    rw [register_useNamespacing]; exact hns
  have hkeyne : (A ++ ":" ++ x) ≠ (B ++ ":" ++ x) := nsKey_injective A B x x hAc hBc hAB
  have hfreshB1 : JsMap.find?
      (handleClientToolRegistration s A [⟨x, dA, schA⟩]).1.tools (B ++ ":" ++ x) = none := by
    rw [hA.2.1, JsMap.find?_set_ne _ _ _ _ (fun hh => hkeyne hh.symm)]
    exact unregister_tools_none s A _ hfreshB
  have hfreshB2 : JsMap.find?
      (unregisterClientTools (handleClientToolRegistration s A [⟨x, dA, schA⟩]).1 B).tools
      (B ++ ":" ++ x) = none :=
    unregister_tools_none _ B _ hfreshB1
  have hB := register_single_fresh (handleClientToolRegistration s A [⟨x, dA, schA⟩]).1 B
    ⟨x, dB, schB⟩ hns1 hfreshB2
  have hns2 : (handleClientToolRegistration
      (handleClientToolRegistration s A [⟨x, dA, schA⟩]).1 B
        [⟨x, dB, schB⟩]).1.useNamespacing = true := by
    rw [register_useNamespacing]; exact hns1
  have hownA1 : JsMap.find?
      (handleClientToolRegistration s A [⟨x, dA, schA⟩]).1.toolToClient (A ++ ":" ++ x)
      = some A := by
    rw [hA.2.2.1, JsMap.find?_set_self]
  have hpresA := unregister_preserves_unowned
    (handleClientToolRegistration s A [⟨x, dA, schA⟩]).1 B (A ++ ":" ++ x) A hinv1 hownA1 hAB
  have htoolsA2 : JsMap.find? (handleClientToolRegistration
      (handleClientToolRegistration s A [⟨x, dA, schA⟩]).1 B [⟨x, dB, schB⟩]).1.tools
        (A ++ ":" ++ x)
      = some { name := x, description := "[" ++ A ++ "] " ++ dA, inputSchema := schA } := by
    rw [hB.2.1, JsMap.find?_set_ne _ _ _ _ hkeyne, hpresA.1, hA.2.1, JsMap.find?_set_self]
  have htoolsB2 : JsMap.find? (handleClientToolRegistration
      (handleClientToolRegistration s A [⟨x, dA, schA⟩]).1 B [⟨x, dB, schB⟩]).1.tools
        (B ++ ":" ++ x)
      = some { name := x, description := "[" ++ B ++ "] " ++ dB, inputSchema := schB } := by
    rw [hB.2.1, JsMap.find?_set_self]
  have httcA2 : JsMap.find? (handleClientToolRegistration
      (handleClientToolRegistration s A [⟨x, dA, schA⟩]).1 B [⟨x, dB, schB⟩]).1.toolToClient
        (A ++ ":" ++ x) = some A := by
    rw [hB.2.2.1, JsMap.find?_set_ne _ _ _ _ hkeyne, hpresA.2]
    exact hownA1
  have httcB2 : JsMap.find? (handleClientToolRegistration
      (handleClientToolRegistration s A [⟨x, dA, schA⟩]).1 B [⟨x, dB, schB⟩]).1.toolToClient
        (B ++ ":" ++ x) = some B := by
    rw [hB.2.2.1, JsMap.find?_set_self]
  refine ⟨?_, ?_, ?_, ?_, htoolsA2, htoolsB2, httcA2, httcB2, ?_, ?_, ?_⟩
  · rw [hA.1]
  · rw [hA.1]
  · rw [hB.1]
  · rw [hB.1]
  · exact nsDescription_injective A B dA dB hAbr hBbr hAB
  · simp [notifyClientExecute, httcA2, hA0, hAs, hns2, getOriginalToolName_namespaced A x hAc]
  · simp [notifyClientExecute, httcB2, hB0, hBs, hns2, getOriginalToolName_namespaced B x hBc]

open ClientExecServer in
/-- Witness for `c8_namespacing_no_conflict` at concrete peers "a" and "b"
registering raw name "x" in the empty namespaced registry. -/
theorem c8_witness :
    notifyClientExecute (handleClientToolRegistration
      (handleClientToolRegistration (initialRegState true) "a" [⟨"x", "dA", .null⟩]).1 "b"
        [⟨"x", "dB", .null⟩]).1
      "r" ("a" ++ ":" ++ "x") .null = .ok ⟨"r", "x", .null, "a"⟩ :=
  (c8_namespacing_no_conflict (initialRegState true) "a" "b" "x" "dA" "dB" "r" .null .null .null
    rfl (regInv_initial true) (by decide) (by decide) (by decide) (by decide) (by decide)
    (by decide) (by decide) (by decide) (by decide) rfl rfl).2.2.2.2.2.2.2.2.2.1

open WithPuppet in
/-- C9: while a puppet binding is in effect, one call of the puppet's `send`
with a message sends it through the controller transport's send first and then
through the puppet's captured pre-binding send, in that order. -/
theorem c9_puppet_send_order (s0 : BridgeState) (guard : Bool) (methods : List String)
    (m : WireMsg) :
    puppetSend (applyPuppetBinding guard methods s0) m
      = [.viaControllerTransport m, .viaPuppetOriginal m] := by
  simp [puppetSend, applyPuppetBinding]

end Cmcp
